import Mathlib

/-!
Verification development for the LLM response-normalization layer of the
repository (`web-ui/internal/services/ai.go`): the functions
`parseAIResponse`, `createFallbackReview`, `parseQuestions`, `parseHint`
and `parseChatResponse`, which the specification groups under the name
`ResponseExtractor` (`ExtractObject` / `ExtractArray` / `ExtractPlainText`).

Shallow embedding conventions:
* Go strings are modelled as `List Char` (wrapped in `String` at the API
  boundary).  Byte indices coincide with character indices on the ASCII
  delimiters (`{`, `}`, `[`, `]`, backtick) that the Go code searches for,
  since in valid UTF-8 an ASCII byte only occurs as a whole character, so
  `strings.Index`/`strings.LastIndex`/slicing are modelled at character
  granularity.  The 500-byte truncation in `createFallbackReview` is likewise
  modelled at character granularity.
* A Go slice expression `s[a:b]` with `a > b` panics at runtime; functions
  that can reach such a slice are modelled with result type `Option _`,
  `none` standing for the panic.
* `encoding/json` is modelled by an executable JSON parser/decoder
  (`parseJsonTop`, `jsonUnmarshalReview`, `jsonUnmarshalStrings`) and an
  executable encoder (`marshalReview`) that follows
  `json.Marshal`'s escaping rules (HTML escaping of `<`, `>`, `&`,
  lowercase `\uXXXX` escapes for control characters).  JSON numbers are
  restricted to integers (the Go code stores them in `float64`; every score
  the program and the specification manipulate is an integer, and no claim
  depends on fractional or exponent-form numbers).
* `unicode.IsSpace` is modelled by the ASCII whitespace characters
  (space, tab, newline, carriage return, vertical tab, form feed); all inputs
  appearing in the claims are ASCII.
-/

/-- Whitespace predicate modelling `unicode.IsSpace` on the ASCII range
(`strings.TrimSpace` trims these). -/
def wsChar (c : Char) : Bool :=
  c = ' ' ∨ c = '\t' ∨ c = '\n' ∨ c = '\r' ∨ c = Char.ofNat 11 ∨ c = Char.ofNat 12

/-- Model of Go `strings.TrimSpace` on character lists. -/
def goTrimSpace (l : List Char) : List Char :=
  ((l.dropWhile wsChar).reverse.dropWhile wsChar).reverse

/-- Boolean test: does `l` start with `p`?  (Model of the prefix test done
by `strings.TrimPrefix` / `strings.HasPrefix`.) -/
def hasPre : List Char → List Char → Bool
  | [], _ => true
  | _ :: _, [] => false
  | c :: p, x :: l => x = c && hasPre p l

/-- Model of Go `strings.TrimPrefix`. -/
def goDropPre (p l : List Char) : List Char :=
  if hasPre p l then l.drop p.length else l

/-- Model of Go `strings.TrimSuffix`. -/
def goDropSuf (p l : List Char) : List Char :=
  (goDropPre p.reverse l.reverse).reverse

/-- Index of the first occurrence of `c` in `l` (model of `strings.Index`
for a single-character needle; `none` models the result `-1`). -/
def idxOf : List Char → Char → Option Nat
  | [], _ => none
  | a :: t, c => if a = c then some 0 else (idxOf t c).map (· + 1)

/-- Index of the last occurrence of `c` in `l` (model of
`strings.LastIndex`; `none` models `-1`). -/
def lastIdx (l : List Char) (c : Char) : Option Nat :=
  (idxOf l.reverse c).map (fun i => l.length - 1 - i)

/-- The cleaning pipeline at the top of `parseAIResponse`
(`ai.go` lines 727-731): trim space, strip a leading ```` ```json ````,
strip a leading ```` ``` ````, strip a trailing ```` ``` ````, trim space. -/
def goCleanResponse (l : List Char) : List Char :=
  goTrimSpace
    (goDropSuf "```".data
      (goDropPre "```".data
        (goDropPre "```json".data (goTrimSpace l))))

/-! ## Data model (`ai.go` lines 126-160)

Field names follow the JSON tags of the Go structs (`overall_score`, ...),
because the Go field name `Type` is not a legal Lean field name; the JSON
tags are the names the decoder matches on. -/

/-- Go struct `ComplexityAnalysis` (`ai.go` 155-160). -/
structure ComplexityAnalysis where
  time_complexity : String
  space_complexity : String
  can_optimize : Bool
  optimized_approach : String
deriving DecidableEq, Repr

/-- Go struct `CodeIssue` (`ai.go` 138-144). -/
structure CodeIssue where
  type : String
  severity : String
  line_number : Int
  description : String
  solution : String
deriving DecidableEq, Repr

/-- Go struct `CodeSuggestion` (`ai.go` 147-152).  The JSON tag of the last
field is `example`, a Lean keyword, hence the trailing underscore. -/
structure CodeSuggestion where
  category : String
  priority : String
  description : String
  example_ : String
deriving DecidableEq, Repr

/-- Go struct `AICodeReview` (`ai.go` 126-135), the spec's `ReviewResult`. -/
structure AICodeReview where
  overall_score : Int
  issues : List CodeIssue
  suggestions : List CodeSuggestion
  interviewer_feedback : String
  follow_up_questions : List String
  complexity : ComplexityAnalysis
  readability_score : Int
  test_coverage : String
deriving DecidableEq, Repr

/-- The zero value of `ComplexityAnalysis` (Go zero struct). -/
def zeroComplexity : ComplexityAnalysis := ⟨"", "", false, ""⟩

/-- The zero value of `CodeIssue`. -/
def zeroIssue : CodeIssue := ⟨"", "", 0, "", ""⟩

/-- The zero value of `CodeSuggestion`. -/
def zeroSuggestion : CodeSuggestion := ⟨"", "", "", ""⟩

/-- The zero value of `AICodeReview` (the struct `var review AICodeReview`
that `json.Unmarshal` fills in). -/
def zeroReview : AICodeReview :=
  ⟨0, [], [], "", [], zeroComplexity, 0, ""⟩

/-! ## JSON values and parser (model of `encoding/json` syntax) -/

/-- JSON value tree.  Numbers are restricted to integers (see the header
comment); object member keys are character lists. -/
inductive Jval where
  | jnull : Jval
  | jbool : Bool → Jval
  | jnum : Int → Jval
  | jstr : List Char → Jval
  | jarr : List Jval → Jval
  | jobj : List (List Char × Jval) → Jval

/-- JSON inter-token whitespace (RFC 8259, also what Go's scanner skips). -/
def jsonWs (c : Char) : Bool :=
  c = ' ' ∨ c = '\t' ∨ c = '\n' ∨ c = '\r'

/-- Skip leading JSON whitespace. -/
def skipWS : List Char → List Char
  | [] => []
  | c :: t => if jsonWs c then skipWS t else c :: t

/-- Consume an expected single character. -/
def chomp (c : Char) : List Char → Option (List Char)
  | x :: t => if x = c then some t else none
  | [] => none

/-- Consume an expected literal character sequence. -/
def dropExact : List Char → List Char → Option (List Char)
  | [], l => some l
  | _ :: _, [] => none
  | c :: p, x :: l => if x = c then dropExact p l else none

/-- Value of a hexadecimal digit character. -/
def hexVal (c : Char) : Option Nat :=
  if '0' ≤ c ∧ c ≤ '9' then some (c.toNat - 48)
  else if 'a' ≤ c ∧ c ≤ 'f' then some (c.toNat - 87)
  else if 'A' ≤ c ∧ c ≤ 'F' then some (c.toNat - 55)
  else none

/-- Body of a JSON string literal, after the opening quote.  Returns the
decoded characters and the rest of the input past the closing quote.
Handles the escape sequences of RFC 8259 including `\uXXXX`; a control
character or a lone backslash at the end is a syntax error, as in Go. -/
def parseStrBody : List Char → Option (List Char × List Char)
  | [] => none
  | c :: t =>
    if c = '"' then some ([], t)
    else if c = '\\' then
      match t with
      | [] => none
      | e :: t' =>
        if e = '"' then (parseStrBody t').map (fun p => ('"' :: p.1, p.2))
        else if e = '\\' then (parseStrBody t').map (fun p => ('\\' :: p.1, p.2))
        else if e = '/' then (parseStrBody t').map (fun p => ('/' :: p.1, p.2))
        else if e = 'b' then (parseStrBody t').map (fun p => (Char.ofNat 8 :: p.1, p.2))
        else if e = 'f' then (parseStrBody t').map (fun p => (Char.ofNat 12 :: p.1, p.2))
        else if e = 'n' then (parseStrBody t').map (fun p => ('\n' :: p.1, p.2))
        else if e = 'r' then (parseStrBody t').map (fun p => ('\r' :: p.1, p.2))
        else if e = 't' then (parseStrBody t').map (fun p => ('\t' :: p.1, p.2))
        else if e = 'u' then
          match t' with
          | h1 :: h2 :: h3 :: h4 :: t'' =>
            match hexVal h1, hexVal h2, hexVal h3, hexVal h4 with
            | some a, some b, some c', some d =>
              (parseStrBody t'').map
                (fun p => (Char.ofNat (((a * 16 + b) * 16 + c') * 16 + d) :: p.1, p.2))
            | _, _, _, _ => none
          | _ => none
        else none
    else if c.toNat < 32 then none
    else (parseStrBody t).map (fun p => (c :: p.1, p.2))

/-- Consume a maximal run of decimal digits, extending the accumulator. -/
def readDigits (acc : Nat) : List Char → Nat × List Char
  | [] => (acc, [])
  | c :: t => if c.isDigit then readDigits (10 * acc + (c.toNat - 48)) t else (acc, c :: t)

/-- The integer part of a JSON number: `0`, or a nonzero digit followed by
more digits (JSON forbids redundant leading zeros, and Go rejects them). -/
def parseDigitsJ : List Char → Option (Nat × List Char)
  | [] => none
  | c :: t =>
    if c = '0' then
      match t with
      | d :: _ => if d.isDigit then none else some (0, t)
      | [] => some (0, [])
    else if c.isDigit then some (readDigits (c.toNat - 48) t)
    else none

/-- A JSON integer with optional minus sign.  Fraction and exponent parts
are not modelled (see the header comment); an input using them fails to
parse, which `parseAIResponse` treats like any other parse error. -/
def parseNum (l : List Char) : Option (Int × List Char) :=
  match l with
  | [] => none
  | c :: t =>
    if c = '-' then (parseDigitsJ t).map (fun p => (-(p.1 : Int), p.2))
    else (parseDigitsJ l).map (fun p => ((p.1 : Int), p.2))

mutual

/-- Parse one JSON value (fuel-indexed; the fuel strictly decreases on
every recursive call, and the top-level wrapper supplies enough fuel for
any input that consumes at least one character per nesting level). -/
def parseVal : Nat → List Char → Option (Jval × List Char)
  | 0, _ => none
  | f + 1, l =>
    match skipWS l with
    | [] => none
    | c :: t =>
      if c = '{' then
        match chomp '}' (skipWS t) with
        | some r => some (.jobj [], r)
        | none => (parseMembers f (skipWS t)).map (fun p => (.jobj p.1, p.2))
      else if c = '[' then
        match chomp ']' (skipWS t) with
        | some r => some (.jarr [], r)
        | none => (parseElems f (skipWS t)).map (fun p => (.jarr p.1, p.2))
      else if c = '"' then (parseStrBody t).map (fun p => (.jstr p.1, p.2))
      else if c = 't' then (dropExact "rue".data t).map (fun r => (.jbool true, r))
      else if c = 'f' then (dropExact "alse".data t).map (fun r => (.jbool false, r))
      else if c = 'n' then (dropExact "ull".data t).map (fun r => (.jnull, r))
      else (parseNum (c :: t)).map (fun p => (.jnum p.1, p.2))

/-- Parse the members of a non-empty JSON object, up to and including the
closing brace. -/
def parseMembers : Nat → List Char → Option (List (List Char × Jval) × List Char)
  | 0, _ => none
  | f + 1, l =>
    match skipWS l with
    | c :: t =>
      if c = '"' then
        match parseStrBody t with
        | none => none
        | some (k, r₁) =>
          match skipWS r₁ with
          | ':' :: r₂ =>
            match parseVal f r₂ with
            | none => none
            | some (v, r₃) =>
              match skipWS r₃ with
              | ',' :: r₄ => (parseMembers f r₄).map (fun p => ((k, v) :: p.1, p.2))
              | '}' :: r₄ => some ([(k, v)], r₄)
              | _ => none
          | _ => none
      else none
    | [] => none

/-- Parse the elements of a non-empty JSON array, up to and including the
closing bracket. -/
def parseElems : Nat → List Char → Option (List Jval × List Char)
  | 0, _ => none
  | f + 1, l =>
    match parseVal f l with
    | none => none
    | some (v, r₁) =>
      match skipWS r₁ with
      | ',' :: r₂ => (parseElems f r₂).map (fun p => (v :: p.1, p.2))
      | ']' :: r₂ => some ([v], r₂)
      | _ => none

end

/-- Parse a complete JSON text: one value, with nothing but whitespace
after it (Go's `json.Unmarshal` rejects trailing data). -/
def parseJsonTop (l : List Char) : Option Jval :=
  match parseVal (l.length + 2) l with
  | some (v, r) => if skipWS r = [] then some v else none
  | none => none


/-! ## JSON member-key character lists (the Go struct tags, spelled as
explicit character lists so that proofs about the encoder and decoder stay
syntactic; `key_constants_spell_tags` below checks each against the
corresponding string literal). -/

/-- The JSON tag `overall_score`. -/
def kOverallScore : List Char := ['o','v','e','r','a','l','l','_','s','c','o','r','e']

/-- The JSON tag `issues`. -/
def kIssues : List Char := ['i','s','s','u','e','s']

/-- The JSON tag `suggestions`. -/
def kSuggestions : List Char := ['s','u','g','g','e','s','t','i','o','n','s']

/-- The JSON tag `interviewer_feedback`. -/
def kInterviewerFeedback : List Char :=
  ['i','n','t','e','r','v','i','e','w','e','r','_','f','e','e','d','b','a','c','k']

/-- The JSON tag `follow_up_questions`. -/
def kFollowUpQuestions : List Char :=
  ['f','o','l','l','o','w','_','u','p','_','q','u','e','s','t','i','o','n','s']

/-- The JSON tag `complexity`. -/
def kComplexity : List Char := ['c','o','m','p','l','e','x','i','t','y']

/-- The JSON tag `readability_score`. -/
def kReadabilityScore : List Char :=
  ['r','e','a','d','a','b','i','l','i','t','y','_','s','c','o','r','e']

/-- The JSON tag `test_coverage`. -/
def kTestCoverage : List Char := ['t','e','s','t','_','c','o','v','e','r','a','g','e']

/-- The JSON tag `type`. -/
def kType : List Char := ['t','y','p','e']

/-- The JSON tag `severity`. -/
def kSeverity : List Char := ['s','e','v','e','r','i','t','y']

/-- The JSON tag `line_number`. -/
def kLineNumber : List Char := ['l','i','n','e','_','n','u','m','b','e','r']

/-- The JSON tag `description`. -/
def kDescription : List Char := ['d','e','s','c','r','i','p','t','i','o','n']

/-- The JSON tag `solution`. -/
def kSolution : List Char := ['s','o','l','u','t','i','o','n']

/-- The JSON tag `category`. -/
def kCategory : List Char := ['c','a','t','e','g','o','r','y']

/-- The JSON tag `priority`. -/
def kPriority : List Char := ['p','r','i','o','r','i','t','y']

/-- The JSON tag `example`. -/
def kExample : List Char := ['e','x','a','m','p','l','e']

/-- The JSON tag `time_complexity`. -/
def kTimeComplexity : List Char :=
  ['t','i','m','e','_','c','o','m','p','l','e','x','i','t','y']

/-- The JSON tag `space_complexity`. -/
def kSpaceComplexity : List Char :=
  ['s','p','a','c','e','_','c','o','m','p','l','e','x','i','t','y']

/-- The JSON tag `can_optimize`. -/
def kCanOptimize : List Char := ['c','a','n','_','o','p','t','i','m','i','z','e']

/-- The JSON tag `optimized_approach`. -/
def kOptimizedApproach : List Char :=
  ['o','p','t','i','m','i','z','e','d','_','a','p','p','r','o','a','c','h']

/-! ## Decoding into the Go structs (model of `json.Unmarshal` semantics:
unknown keys are skipped, later duplicate keys win, `null` leaves the
target unchanged, any type mismatch is an error). -/

/-- Decode every element of a JSON array with `f`, failing if any element
fails. -/
def decList (f : Jval → Option β) : List Jval → Option (List β)
  | [] => some []
  | v :: t =>
    match f v with
    | none => none
    | some b => (decList f t).map (fun bs => b :: bs)

/-- One object member applied to a `ComplexityAnalysis` under decode. -/
def applyComplexityField (c : ComplexityAnalysis) : List Char × Jval → Option ComplexityAnalysis
  | (k, v) =>
    if k = kTimeComplexity then
      match v with
      | .jstr s => some { c with time_complexity := String.mk s }
      | .jnull => some c
      | _ => none
    else if k = kSpaceComplexity then
      match v with
      | .jstr s => some { c with space_complexity := String.mk s }
      | .jnull => some c
      | _ => none
    else if k = kCanOptimize then
      match v with
      | .jbool b => some { c with can_optimize := b }
      | .jnull => some c
      | _ => none
    else if k = kOptimizedApproach then
      match v with
      | .jstr s => some { c with optimized_approach := String.mk s }
      | .jnull => some c
      | _ => none
    else some c

/-- Fold a member list into a `ComplexityAnalysis`. -/
def decComplexityFields (c : ComplexityAnalysis) : List (List Char × Jval) → Option ComplexityAnalysis
  | [] => some c
  | kv :: t =>
    match applyComplexityField c kv with
    | none => none
    | some c' => decComplexityFields c' t

/-- One object member applied to a `CodeIssue` under decode. -/
def applyIssueField (i : CodeIssue) : List Char × Jval → Option CodeIssue
  | (k, v) =>
    if k = kType then
      match v with
      | .jstr s => some { i with type := String.mk s }
      | .jnull => some i
      | _ => none
    else if k = kSeverity then
      match v with
      | .jstr s => some { i with severity := String.mk s }
      | .jnull => some i
      | _ => none
    else if k = kLineNumber then
      match v with
      | .jnum n => some { i with line_number := n }
      | .jnull => some i
      | _ => none
    else if k = kDescription then
      match v with
      | .jstr s => some { i with description := String.mk s }
      | .jnull => some i
      | _ => none
    else if k = kSolution then
      match v with
      | .jstr s => some { i with solution := String.mk s }
      | .jnull => some i
      | _ => none
    else some i

/-- Fold a member list into a `CodeIssue`. -/
def decIssueFields (i : CodeIssue) : List (List Char × Jval) → Option CodeIssue
  | [] => some i
  | kv :: t =>
    match applyIssueField i kv with
    | none => none
    | some i' => decIssueFields i' t

/-- Decode one element of the `issues` array. -/
def decodeIssue : Jval → Option CodeIssue
  | .jobj fs => decIssueFields zeroIssue fs
  | .jnull => some zeroIssue
  | _ => none

/-- One object member applied to a `CodeSuggestion` under decode. -/
def applySuggestionField (sg : CodeSuggestion) : List Char × Jval → Option CodeSuggestion
  | (k, v) =>
    if k = kCategory then
      match v with
      | .jstr s => some { sg with category := String.mk s }
      | .jnull => some sg
      | _ => none
    else if k = kPriority then
      match v with
      | .jstr s => some { sg with priority := String.mk s }
      | .jnull => some sg
      | _ => none
    else if k = kDescription then
      match v with
      | .jstr s => some { sg with description := String.mk s }
      | .jnull => some sg
      | _ => none
    else if k = kExample then
      match v with
      | .jstr s => some { sg with example_ := String.mk s }
      | .jnull => some sg
      | _ => none
    else some sg

/-- Fold a member list into a `CodeSuggestion`. -/
def decSuggestionFields (sg : CodeSuggestion) : List (List Char × Jval) → Option CodeSuggestion
  | [] => some sg
  | kv :: t =>
    match applySuggestionField sg kv with
    | none => none
    | some sg' => decSuggestionFields sg' t

/-- Decode one element of the `suggestions` array. -/
def decodeSuggestion : Jval → Option CodeSuggestion
  | .jobj fs => decSuggestionFields zeroSuggestion fs
  | .jnull => some zeroSuggestion
  | _ => none

/-- Decode one element of a `[]string` target. -/
def decodeStringItem : Jval → Option String
  | .jstr s => some (String.mk s)
  | .jnull => some ""
  | _ => none

/-- One object member applied to an `AICodeReview` under decode. -/
def applyReviewField (r : AICodeReview) : List Char × Jval → Option AICodeReview
  | (k, v) =>
    if k = kOverallScore then
      match v with
      | .jnum n => some { r with overall_score := n }
      | .jnull => some r
      | _ => none
    else if k = kIssues then
      match v with
      | .jarr xs => (decList decodeIssue xs).map (fun is => { r with issues := is })
      | .jnull => some r
      | _ => none
    else if k = kSuggestions then
      match v with
      | .jarr xs => (decList decodeSuggestion xs).map (fun ss => { r with suggestions := ss })
      | .jnull => some r
      | _ => none
    else if k = kInterviewerFeedback then
      match v with
      | .jstr s => some { r with interviewer_feedback := String.mk s }
      | .jnull => some r
      | _ => none
    else if k = kFollowUpQuestions then
      match v with
      | .jarr xs => (decList decodeStringItem xs).map (fun qs => { r with follow_up_questions := qs })
      | .jnull => some r
      | _ => none
    else if k = kComplexity then
      match v with
      | .jobj fs => (decComplexityFields r.complexity fs).map (fun c => { r with complexity := c })
      | .jnull => some r
      | _ => none
    else if k = kReadabilityScore then
      match v with
      | .jnum n => some { r with readability_score := n }
      | .jnull => some r
      | _ => none
    else if k = kTestCoverage then
      match v with
      | .jstr s => some { r with test_coverage := String.mk s }
      | .jnull => some r
      | _ => none
    else some r

/-- Fold a member list into an `AICodeReview`. -/
def decReviewFields (r : AICodeReview) : List (List Char × Jval) → Option AICodeReview
  | [] => some r
  | kv :: t =>
    match applyReviewField r kv with
    | none => none
    | some r' => decReviewFields r' t

/-- Model of `json.Unmarshal(jsonStr, &review)` for `review : AICodeReview`
(`ai.go` line 754): syntax plus decoding; `none` is a non-nil error. -/
def jsonUnmarshalReview (l : List Char) : Option AICodeReview :=
  match parseJsonTop l with
  | some (.jobj fs) => decReviewFields zeroReview fs
  | some .jnull => some zeroReview
  | _ => none

/-- Model of `json.Unmarshal(jsonStr, &questions)` for
`questions : []string` (`ai.go` line 829). -/
def jsonUnmarshalStrings (l : List Char) : Option (List String) :=
  match parseJsonTop l with
  | some (.jarr xs) => decList decodeStringItem xs
  | some .jnull => some []
  | _ => none

/-! ## The extraction layer (`ai.go` lines 725-845, 912-926) -/

/-- `createFallbackReview(reason, rawResponse)` (`ai.go` 770-814): the
canonical total-failure `AICodeReview`.  The echoed text is truncated to
500 characters with an appended ellipsis, and an empty echo is replaced by
a fixed message, exactly as in the source. -/
def createFallbackReview (reason rawResponse : String) : AICodeReview :=
  let feedback :=
    if 500 < rawResponse.data.length
    then String.mk (rawResponse.data.take 500) ++ "..."
    else rawResponse
  let feedback :=
    if feedback = "" then "AI provided an empty or malformed response. Please try again."
    else feedback
  { overall_score := 50
    issues := [{ type := "parsing"
                 severity := "medium"
                 line_number := 0
                 description := "AI response parsing issue: " ++ reason
                 solution := "Try running the AI review again, or check your code for syntax issues." }]
    suggestions := [{ category := "troubleshooting"
                      priority := "medium"
                      description := "If this keeps happening, try simplifying your code or breaking it into smaller functions."
                      example_ := "" }]
    interviewer_feedback :=
      "I'm having trouble analyzing your code automatically. " ++ feedback ++
        " Let's focus on the core logic - can you walk me through your approach?"
    follow_up_questions :=
      ["Can you explain your algorithm step by step?",
       "What's the time complexity of your solution?",
       "How would you handle edge cases?"]
    complexity := { time_complexity := "Unable to analyze"
                    space_complexity := "Unable to analyze"
                    can_optimize := false
                    optimized_approach := "Rerun analysis after fixing any syntax issues" }
    readability_score := 50
    test_coverage := "Unable to assess due to parsing error" }

/-- The body of `parseAIResponse` after the cleaning pipeline
(`ai.go` 733-766), on the cleaned character list.  `none` models the
runtime panic of the slice expression `response[start : end+1]` when
`start > end+1` (Go only checks `start == -1 || end == -1`). -/
def parseCore (l : List Char) : Option AICodeReview :=
  match idxOf l '{', lastIdx l '}' with
  | some start, some stop =>
    if start > stop + 1 then none
    else
      let jsonStr := (l.drop start).take (stop + 1 - start)
      if jsonStr.count '{' ≠ jsonStr.count '}' then
        some (createFallbackReview "Incomplete JSON response" (String.mk jsonStr))
      else
        match jsonUnmarshalReview jsonStr with
        | none => some (createFallbackReview "JSON parsing error" (String.mk jsonStr))
        | some review =>
          if review.overall_score = 0 ∧ review.readability_score = 0 ∧
              review.interviewer_feedback = "" then
            some (createFallbackReview "Incomplete AI response" (String.mk jsonStr))
          else some review
  | _, _ => some (createFallbackReview "No JSON found in AI response" (String.mk l))

/-- `parseAIResponse` (`ai.go` 725-767), the spec's `ExtractObject`.
The Go function's `error` result is always `nil`; `none` models a panic. -/
def parseAIResponse (response : String) : Option AICodeReview :=
  parseCore (goCleanResponse response.data)

/-- The fixed default question list of `parseQuestions` (`ai.go` 823, 831). -/
def defaultQuestions : List String :=
  ["What's the time complexity of your solution?",
   "How would you handle edge cases?",
   "Can you optimize this further?"]

/-- `parseQuestions` (`ai.go` 817-835), the spec's `ExtractArray`.
`none` models the panic of `response[start : end+1]` when `start > end+1`.
Note there is no cleaning pipeline here, unlike `parseAIResponse`. -/
def parseQuestions (response : String) : Option (List String) :=
  match idxOf response.data '[', lastIdx response.data ']' with
  | some start, some stop =>
    if start > stop + 1 then none
    else
      let jsonStr := (response.data.drop start).take (stop + 1 - start)
      match jsonUnmarshalStrings jsonStr with
      | none => some defaultQuestions
      | some qs => some qs
  | _, _ => some defaultQuestions

/-- `parseHint` (`ai.go` 838-845): trim; an empty result is replaced by a
fixed prompt-continuation string. -/
def parseHint (response : String) : String :=
  let hint := String.mk (goTrimSpace response.data)
  if hint = "" then "Consider the problem step by step. What's the core requirement here?"
  else hint

/-- `parseChatResponse` (`ai.go` 912-926): trim, strip one leading and one
trailing ```` ``` ```` (no language-tag handling), trim; an empty result is
replaced by a fixed prompt-continuation string. -/
def parseChatResponse (response : String) : String :=
  let cleaned :=
    String.mk
      (goTrimSpace
        (goDropSuf "```".data (goDropPre "```".data (goTrimSpace response.data))))
  if cleaned = "" then "I'm here to help! Could you rephrase your question?"
  else cleaned

/-! ## Encoding (model of `json.Marshal` on the Go structs, with the
encoder's default HTML escaping), used for the round-trip claim.  Since
only `AICodeReview` values are marshalled by the program under this claim,
the encoder is written directly over the structs (the layout `json.Marshal`
produces: no whitespace, members in struct order). -/

/-- Decimal digit character. -/
def toDigitChar (d : Nat) : Char := Char.ofNat (48 + d)

/-- Lowercase hexadecimal digit character (Go's encoder uses lowercase). -/
def hexDig (d : Nat) : Char :=
  if d < 10 then Char.ofNat (48 + d) else Char.ofNat (87 + d)

/-- Little-endian decimal digits of `n` (fuel-indexed so that it reduces
in the kernel; `fuel ≥ n` suffices). -/
def natDigitsRev (fuel n : Nat) : List Nat :=
  match fuel with
  | 0 => []
  | f + 1 => if n = 0 then [] else n % 10 :: natDigitsRev f (n / 10)

/-- Decimal representation of a natural number, most significant digit
first. -/
def printNat (n : Nat) : List Char :=
  if n = 0 then ['0'] else ((natDigitsRev n n).map toDigitChar).reverse

/-- Decimal representation of an integer. -/
def printInt (n : Int) : List Char :=
  if n < 0 then '-' :: printNat (-n).toNat else printNat n.toNat

/-- The four-digit hexadecimal `\uXXXX` payload for a code point below
`0x10000`. -/
def hex4 (n : Nat) : List Char :=
  [hexDig (n / 4096 % 16), hexDig (n / 256 % 16), hexDig (n / 16 % 16), hexDig (n % 16)]

/-- Encoding of one character inside a JSON string, following Go's
`encoding/json` encoder: `"` and `\` are backslash-escaped; newline,
carriage return and tab use their short escapes; other control characters
use `\u00xx`; `<`, `>`, `&` are HTML-escaped; U+2028 and U+2029 are
escaped; everything else is literal. -/
def escapeChar (c : Char) : List Char :=
  if c = '"' then ['\\', '"']
  else if c = '\\' then ['\\', '\\']
  else if c = '\n' then ['\\', 'n']
  else if c = '\r' then ['\\', 'r']
  else if c = '\t' then ['\\', 't']
  else if c = '<' ∨ c = '>' ∨ c = '&' ∨ c.toNat < 32 ∨ c.toNat = 8232 ∨ c.toNat = 8233 then
    '\\' :: 'u' :: hex4 c.toNat
  else [c]

/-- Encoding of a JSON string body. -/
def escapeStr : List Char → List Char
  | [] => []
  | c :: t => escapeChar c ++ escapeStr t

/-- A complete JSON string literal. -/
def printStr (s : List Char) : List Char :=
  '"' :: (escapeStr s ++ ['"'])

/-- A JSON boolean literal. -/
def printBool (b : Bool) : List Char :=
  if b then 't' :: 'r' :: 'u' :: 'e' :: [] else 'f' :: 'a' :: 'l' :: 's' :: 'e' :: []

/-- Continuation-style JSON string-body encoder: the escaped characters
of `s`, followed by `rest`.  (`escStrC s r = escapeStr s ++ r`; the
continuation form keeps the serialized text in constructor normal form.) -/
def escStrC : List Char → List Char → List Char
  | [], rest => rest
  | c :: t, rest => escapeChar c ++ escStrC t rest

/-- A complete JSON string literal, followed by `rest`. -/
def printStrC (s : List Char) (rest : List Char) : List Char :=
  '"' :: escStrC s ('"' :: rest)

/-- `json.Marshal` layout of a `CodeIssue`, followed by `rest`. -/
def printIssueC (i : CodeIssue) (rest : List Char) : List Char :=
  '{' :: '"' :: (kType ++ '"' :: ':' :: printStrC i.type.data
    (',' :: '"' :: (kSeverity ++ '"' :: ':' :: printStrC i.severity.data
    (',' :: '"' :: (kLineNumber ++ '"' :: ':' :: (printInt i.line_number ++
    ',' :: '"' :: (kDescription ++ '"' :: ':' :: printStrC i.description.data
    (',' :: '"' :: (kSolution ++ '"' :: ':' :: printStrC i.solution.data
    ('}' :: rest))))))))))

/-- `json.Marshal` layout of a `CodeSuggestion`, followed by `rest`. -/
def printSuggestionC (sg : CodeSuggestion) (rest : List Char) : List Char :=
  '{' :: '"' :: (kCategory ++ '"' :: ':' :: printStrC sg.category.data
    (',' :: '"' :: (kPriority ++ '"' :: ':' :: printStrC sg.priority.data
    (',' :: '"' :: (kDescription ++ '"' :: ':' :: printStrC sg.description.data
    (',' :: '"' :: (kExample ++ '"' :: ':' :: printStrC sg.example_.data
    ('}' :: rest))))))))

/-- `json.Marshal` layout of a `ComplexityAnalysis`, followed by `rest`. -/
def printComplexityC (c : ComplexityAnalysis) (rest : List Char) : List Char :=
  '{' :: '"' :: (kTimeComplexity ++ '"' :: ':' :: printStrC c.time_complexity.data
    (',' :: '"' :: (kSpaceComplexity ++ '"' :: ':' :: printStrC c.space_complexity.data
    (',' :: '"' :: (kCanOptimize ++ '"' :: ':' :: (printBool c.can_optimize ++
    ',' :: '"' :: (kOptimizedApproach ++ '"' :: ':' :: printStrC c.optimized_approach.data
    ('}' :: rest))))))))

/-- The comma-separated elements of a non-empty `issues` array, up to and
including the closing bracket, followed by `rest`. -/
def printIssuesElemsC : List CodeIssue → List Char → List Char
  | [], rest => rest
  | [i], rest => printIssueC i (']' :: rest)
  | i :: is, rest => printIssueC i (',' :: printIssuesElemsC is rest)

/-- A complete JSON array of `CodeIssue`s, followed by `rest`. -/
def printIssuesArrC (is : List CodeIssue) (rest : List Char) : List Char :=
  match is with
  | [] => '[' :: ']' :: rest
  | _ :: _ => '[' :: printIssuesElemsC is rest

/-- The elements of a non-empty `suggestions` array, followed by `rest`. -/
def printSuggestionsElemsC : List CodeSuggestion → List Char → List Char
  | [], rest => rest
  | [sg], rest => printSuggestionC sg (']' :: rest)
  | sg :: t, rest => printSuggestionC sg (',' :: printSuggestionsElemsC t rest)

/-- A complete JSON array of `CodeSuggestion`s, followed by `rest`. -/
def printSuggestionsArrC (sgs : List CodeSuggestion) (rest : List Char) : List Char :=
  match sgs with
  | [] => '[' :: ']' :: rest
  | _ :: _ => '[' :: printSuggestionsElemsC sgs rest

/-- The elements of a non-empty `[]string` array, followed by `rest`. -/
def printQuestionsElemsC : List String → List Char → List Char
  | [], rest => rest
  | [q], rest => printStrC q.data (']' :: rest)
  | q :: t, rest => printStrC q.data (',' :: printQuestionsElemsC t rest)

/-- A complete JSON array of strings, followed by `rest`. -/
def printQuestionsArrC (qs : List String) (rest : List Char) : List Char :=
  match qs with
  | [] => '[' :: ']' :: rest
  | _ :: _ => '[' :: printQuestionsElemsC qs rest

/-- `json.Marshal` layout of an `AICodeReview` (members in struct order,
no whitespace), followed by `rest`. -/
def printReviewC (r : AICodeReview) (rest : List Char) : List Char :=
  '{' :: '"' :: (kOverallScore ++ '"' :: ':' :: (printInt r.overall_score ++
    ',' :: '"' :: (kIssues ++ '"' :: ':' :: printIssuesArrC r.issues
    (',' :: '"' :: (kSuggestions ++ '"' :: ':' :: printSuggestionsArrC r.suggestions
    (',' :: '"' :: (kInterviewerFeedback ++ '"' :: ':' :: printStrC r.interviewer_feedback.data
    (',' :: '"' :: (kFollowUpQuestions ++ '"' :: ':' :: printQuestionsArrC r.follow_up_questions
    (',' :: '"' :: (kComplexity ++ '"' :: ':' :: printComplexityC r.complexity
    (',' :: '"' :: (kReadabilityScore ++ '"' :: ':' :: (printInt r.readability_score ++
    ',' :: '"' :: (kTestCoverage ++ '"' :: ':' :: printStrC r.test_coverage.data
    ('}' :: rest))))))))))))))))

/-- Model of `json.Marshal` applied to an `AICodeReview`. -/
def marshalReview (r : AICodeReview) : List Char :=
  printReviewC r []

/-- `marshalReview` as a `String`. -/
def marshalReviewStr (r : AICodeReview) : String :=
  String.mk (marshalReview r)

/-- A concrete fully-populated review, used to witness the round-trip
theorem. -/
def sampleReview : AICodeReview :=
  { overall_score := 85
    issues := [{ type := "bug"
                 severity := "low"
                 line_number := 3
                 description := "off by one"
                 solution := "fix the loop bound" }]
    suggestions := [{ category := "style"
                      priority := "low"
                      description := "name the constant"
                      example_ := "const n = 3" }]
    interviewer_feedback := "Good work overall."
    follow_up_questions := ["What is the complexity?"]
    complexity := { time_complexity := "O(n)"
                    space_complexity := "O(1)"
                    can_optimize := false
                    optimized_approach := "" }
    readability_score := 80
    test_coverage := "covers the main path" }

/-- The JSON tree `json.Marshal` lays out for a `ComplexityAnalysis`
(used to state what the parser recovers from `printComplexity`). -/
def complexityToJ (c : ComplexityAnalysis) : Jval :=
  .jobj [(kTimeComplexity, .jstr c.time_complexity.data),
         (kSpaceComplexity, .jstr c.space_complexity.data),
         (kCanOptimize, .jbool c.can_optimize),
         (kOptimizedApproach, .jstr c.optimized_approach.data)]

/-- The JSON tree for a `CodeIssue`. -/
def issueToJ (i : CodeIssue) : Jval :=
  .jobj [(kType, .jstr i.type.data),
         (kSeverity, .jstr i.severity.data),
         (kLineNumber, .jnum i.line_number),
         (kDescription, .jstr i.description.data),
         (kSolution, .jstr i.solution.data)]

/-- The JSON tree for a `CodeSuggestion`. -/
def suggestionToJ (sg : CodeSuggestion) : Jval :=
  .jobj [(kCategory, .jstr sg.category.data),
         (kPriority, .jstr sg.priority.data),
         (kDescription, .jstr sg.description.data),
         (kExample, .jstr sg.example_.data)]

/-- The JSON tree for an `AICodeReview`. -/
def reviewToJ (r : AICodeReview) : Jval :=
  .jobj [(kOverallScore, .jnum r.overall_score),
         (kIssues, .jarr (r.issues.map issueToJ)),
         (kSuggestions, .jarr (r.suggestions.map suggestionToJ)),
         (kInterviewerFeedback, .jstr r.interviewer_feedback.data),
         (kFollowUpQuestions, .jarr (r.follow_up_questions.map (fun q => .jstr q.data))),
         (kComplexity, complexityToJ r.complexity),
         (kReadabilityScore, .jnum r.readability_score),
         (kTestCoverage, .jstr r.test_coverage.data)]

/-! ## Helper lemmas -/

theorem idxOf_some_lt {l : List Char} {c : Char} {i : Nat} (h : idxOf l c = some i) :
    i < l.length := by
  induction l generalizing i with
  | nil => simp [idxOf] at h
  | cons a t ih =>
    simp only [idxOf] at h
    split at h
    · cases h
      simp
    · simp only [Option.map_eq_some'] at h
      obtain ⟨j, hj, hji⟩ := h
      have := ih hj
      simp only [List.length_cons]
      omega

theorem idxOf_isSome_of_mem {l : List Char} {c : Char} (h : c ∈ l) :
    ∃ i, idxOf l c = some i := by
  induction l with
  | nil => simp at h
  | cons a t ih =>
    by_cases ha : a = c
    · exact ⟨0, by simp [idxOf, ha]⟩
    · have hmem : c ∈ t := by
        rcases List.mem_cons.mp h with h' | h'
        · exact absurd h'.symm ha
        · exact h'
      obtain ⟨i, hi⟩ := ih hmem
      exact ⟨i + 1, by simp [idxOf, ha, hi]⟩

theorem idxOf_none_of_not_mem {l : List Char} {c : Char} (h : c ∉ l) :
    idxOf l c = none := by
  induction l with
  | nil => rfl
  | cons a t ih =>
    simp at h
    simp [idxOf, Ne.symm h.1, ih h.2]

theorem idxOf_append_left {l₁ l₂ : List Char} {c : Char} {i : Nat}
    (h : idxOf l₁ c = some i) : idxOf (l₁ ++ l₂) c = some i := by
  induction l₁ generalizing i with
  | nil => simp [idxOf] at h
  | cons a t ih =>
    simp only [idxOf, List.cons_append] at h ⊢
    split at h <;> split
    · exact h
    · simp_all
    · simp_all
    · simp only [Option.map_eq_some'] at h
      obtain ⟨j, hj, hji⟩ := h
      simp [ih hj, hji]

theorem idxOf_append_of_not_mem {l₁ l₂ : List Char} {c : Char} (h : c ∉ l₁) :
    idxOf (l₁ ++ l₂) c = (idxOf l₂ c).map (· + l₁.length) := by
  induction l₁ with
  | nil => simp
  | cons a t ih =>
    simp at h
    cases h2 : idxOf l₂ c with
    | none =>
      have ht : idxOf (t ++ l₂) c = none := by rw [ih h.2, h2]; rfl
      simp [List.cons_append, idxOf, if_neg (Ne.symm h.1), ht, h2]
    | some j =>
      have ht : idxOf (t ++ l₂) c = some (j + t.length) := by rw [ih h.2, h2]; rfl
      simp [List.cons_append, idxOf, if_neg (Ne.symm h.1), ht, h2]
      omega

theorem lastIdx_some_lt {l : List Char} {c : Char} {j : Nat} (h : lastIdx l c = some j) :
    j < l.length := by
  simp only [lastIdx, Option.map_eq_some'] at h
  obtain ⟨i, hi, rfl⟩ := h
  have := idxOf_some_lt hi
  simp only [List.length_reverse] at this
  omega

theorem lastIdx_isSome_of_mem {l : List Char} {c : Char} (h : c ∈ l) :
    ∃ j, lastIdx l c = some j := by
  obtain ⟨i, hi⟩ := idxOf_isSome_of_mem (List.mem_reverse.mpr h)
  exact ⟨l.length - 1 - i, by simp [lastIdx, hi]⟩

theorem lastIdx_none_of_not_mem {l : List Char} {c : Char} (h : c ∉ l) :
    lastIdx l c = none := by
  simp [lastIdx, idxOf_none_of_not_mem (fun hm => h (List.mem_reverse.mp hm))]

theorem idxOf_sandwich {p u q : List Char} {c : Char} {i : Nat}
    (hp : c ∉ p) (hu : idxOf u c = some i) :
    idxOf (p ++ u ++ q) c = some (p.length + i) := by
  have h1 : idxOf (u ++ q) c = some i := idxOf_append_left hu
  rw [List.append_assoc, idxOf_append_of_not_mem hp, h1]
  simp [Nat.add_comm]

theorem lastIdx_sandwich {p u q : List Char} {c : Char} {j : Nat}
    (hq : c ∉ q) (hu : lastIdx u c = some j) :
    lastIdx (p ++ u ++ q) c = some (p.length + j) := by
  simp only [lastIdx, Option.map_eq_some'] at hu
  obtain ⟨i, hi, rfl⟩ := hu
  have hilt := idxOf_some_lt hi
  simp only [List.length_reverse] at hilt
  have hqrev : c ∉ q.reverse := fun hm => hq (List.mem_reverse.mp hm)
  have hrev : (p ++ u ++ q).reverse = q.reverse ++ u.reverse ++ p.reverse := by
    simp [List.reverse_append, List.append_assoc]
  have h1 : idxOf (u.reverse ++ p.reverse) c = some i := idxOf_append_left hi
  have h2 : idxOf (q.reverse ++ u.reverse ++ p.reverse) c = some (q.length + i) := by
    rw [List.append_assoc, idxOf_append_of_not_mem hqrev, h1]
    simp [Nat.add_comm]
  rw [lastIdx, hrev, h2]
  simp only [Option.map_some', Option.some.injEq, List.length_append]
  omega

theorem slice_sandwich {p u q : List Char} {i j : Nat}
    (hij : i ≤ j + 1) (hj : j < u.length) :
    (((p ++ u ++ q).drop (p.length + i)).take (j + 1 - i)) = ((u.drop i).take (j + 1 - i)) := by
  rw [List.append_assoc, List.drop_append,
    List.drop_append_of_le_length (by omega : i ≤ u.length)]
  rw [List.take_append_of_le_length]
  simp only [List.length_drop]
  omega

/-! ## Routing lemmas for `parseCore` (the branch structure of
`parseAIResponse` after cleaning). -/

theorem parseCore_noJson {l : List Char}
    (h : idxOf l '{' = none ∨ lastIdx l '}' = none) :
    parseCore l = some (createFallbackReview "No JSON found in AI response" (String.mk l)) := by
  rcases h with h | h
  · simp only [parseCore, h]
  · simp only [parseCore, h]
    cases idxOf l '{' <;> rfl

theorem parseCore_panic {l : List Char} {i j : Nat}
    (h1 : idxOf l '{' = some i) (h2 : lastIdx l '}' = some j) (h3 : i > j + 1) :
    parseCore l = none := by
  simp only [parseCore, h1, h2, if_pos h3]

theorem parseCore_imbalance {l : List Char} {i j : Nat}
    (h1 : idxOf l '{' = some i) (h2 : lastIdx l '}' = some j) (h3 : i ≤ j + 1)
    (h4 : ((l.drop i).take (j + 1 - i)).count '{' ≠ ((l.drop i).take (j + 1 - i)).count '}') :
    parseCore l =
      some (createFallbackReview "Incomplete JSON response"
        (String.mk ((l.drop i).take (j + 1 - i)))) := by
  simp only [parseCore, h1, h2, if_neg (by omega : ¬ i > j + 1), if_pos h4]

theorem parseCore_parse_error {l : List Char} {i j : Nat}
    (h1 : idxOf l '{' = some i) (h2 : lastIdx l '}' = some j) (h3 : i ≤ j + 1)
    (h4 : ((l.drop i).take (j + 1 - i)).count '{' = ((l.drop i).take (j + 1 - i)).count '}')
    (h5 : jsonUnmarshalReview ((l.drop i).take (j + 1 - i)) = none) :
    parseCore l =
      some (createFallbackReview "JSON parsing error"
        (String.mk ((l.drop i).take (j + 1 - i)))) := by
  simp only [parseCore, h1, h2, if_neg (by omega : ¬ i > j + 1),
    if_neg (by simp [h4] : ¬ ((l.drop i).take (j + 1 - i)).count '{' ≠ ((l.drop i).take (j + 1 - i)).count '}'),
    h5]

theorem parseCore_gate {l : List Char} {i j : Nat} {r : AICodeReview}
    (h1 : idxOf l '{' = some i) (h2 : lastIdx l '}' = some j) (h3 : i ≤ j + 1)
    (h4 : ((l.drop i).take (j + 1 - i)).count '{' = ((l.drop i).take (j + 1 - i)).count '}')
    (h5 : jsonUnmarshalReview ((l.drop i).take (j + 1 - i)) = some r)
    (h6 : r.overall_score = 0 ∧ r.readability_score = 0 ∧ r.interviewer_feedback = "") :
    parseCore l =
      some (createFallbackReview "Incomplete AI response"
        (String.mk ((l.drop i).take (j + 1 - i)))) := by
  simp only [parseCore, h1, h2, if_neg (by omega : ¬ i > j + 1),
    if_neg (by simp [h4] : ¬ ((l.drop i).take (j + 1 - i)).count '{' ≠ ((l.drop i).take (j + 1 - i)).count '}'),
    h5, if_pos h6]

theorem parseCore_success {l : List Char} {i j : Nat} {r : AICodeReview}
    (h1 : idxOf l '{' = some i) (h2 : lastIdx l '}' = some j) (h3 : i ≤ j + 1)
    (h4 : ((l.drop i).take (j + 1 - i)).count '{' = ((l.drop i).take (j + 1 - i)).count '}')
    (h5 : jsonUnmarshalReview ((l.drop i).take (j + 1 - i)) = some r)
    (h6 : ¬(r.overall_score = 0 ∧ r.readability_score = 0 ∧ r.interviewer_feedback = "")) :
    parseCore l = some r := by
  simp only [parseCore, h1, h2, if_neg (by omega : ¬ i > j + 1),
    if_neg (by simp [h4] : ¬ ((l.drop i).take (j + 1 - i)).count '{' ≠ ((l.drop i).take (j + 1 - i)).count '}'),
    h5, if_neg h6]

/-- A Go-style string append is nonempty when its first part is. -/
theorem string_append_ne_left {s : String} (t : String) (h : s ≠ "") : s ++ t ≠ "" := by
  intro he
  apply h
  have hd := congrArg String.data he
  rw [String.data_append] at hd
  rcases List.append_eq_nil.mp hd with ⟨h1, _⟩
  cases s
  simp_all

/-- The `overall_score` of every fallback review is the neutral 50. -/
theorem createFallbackReview_overall (reason raw : String) :
    (createFallbackReview reason raw).overall_score = 50 := rfl

/-- `createFallbackReview` in closed form: the echoed text is empty-replaced
or truncated to the first 500 characters with an ellipsis appended. -/
theorem createFallbackReview_eq (reason raw : String) :
    createFallbackReview reason raw =
      { overall_score := 50
        issues := [{ type := "parsing", severity := "medium", line_number := 0,
                     description := "AI response parsing issue: " ++ reason,
                     solution := "Try running the AI review again, or check your code for syntax issues." }]
        suggestions := [{ category := "troubleshooting", priority := "medium",
                          description := "If this keeps happening, try simplifying your code or breaking it into smaller functions.",
                          example_ := "" }]
        interviewer_feedback :=
          "I'm having trouble analyzing your code automatically. " ++
            (if raw = "" then "AI provided an empty or malformed response. Please try again."
             else if 500 < raw.data.length then String.mk (raw.data.take 500) ++ "..."
             else raw) ++
            " Let's focus on the core logic - can you walk me through your approach?"
        follow_up_questions :=
          ["Can you explain your algorithm step by step?",
           "What's the time complexity of your solution?",
           "How would you handle edge cases?"]
        complexity := { time_complexity := "Unable to analyze",
                        space_complexity := "Unable to analyze",
                        can_optimize := false,
                        optimized_approach := "Rerun analysis after fixing any syntax issues" }
        readability_score := 50
        test_coverage := "Unable to assess due to parsing error" } := by
  unfold createFallbackReview
  by_cases hraw : raw = ""
  · subst hraw
    rfl
  · by_cases hlen : 500 < raw.data.length
    · have htr : (String.mk (raw.data.take 500) ++ "...") ≠ "" := by
        intro he
        have hd := congrArg String.data he
        rw [String.data_append] at hd
        have := List.append_eq_nil.mp hd
        simp at this
      simp only [if_pos hlen, if_neg htr, if_neg hraw]
    · simp only [if_neg hlen, if_neg hraw]

/-- Every review `parseAIResponse` actually returns has at least one
non-zero signal field: each fallback carries score 50, and a cleanly
parsed review only survives the validation gate when it is not
all-zero. -/
theorem parseAIResponse_signals {s : String} {r : AICodeReview}
    (h : parseAIResponse s = some r) :
    ¬(r.overall_score = 0 ∧ r.readability_score = 0 ∧ r.interviewer_feedback = "") := by
  have hpc : parseCore (goCleanResponse s.data) = some r := h
  set l := goCleanResponse s.data with hl
  cases h1 : idxOf l '{' with
  | none =>
    rw [parseCore_noJson (Or.inl h1)] at hpc
    cases hpc
    simp [createFallbackReview]
  | some i =>
    cases h2 : lastIdx l '}' with
    | none =>
      rw [parseCore_noJson (Or.inr h2)] at hpc
      cases hpc
      simp [createFallbackReview]
    | some j =>
      by_cases h3 : i > j + 1
      · rw [parseCore_panic h1 h2 h3] at hpc
        cases hpc
      · have h3' : i ≤ j + 1 := by omega
        by_cases h4 : ((l.drop i).take (j + 1 - i)).count '{' = ((l.drop i).take (j + 1 - i)).count '}'
        · cases h5 : jsonUnmarshalReview ((l.drop i).take (j + 1 - i)) with
          | none =>
            rw [parseCore_parse_error h1 h2 h3' h4 h5] at hpc
            cases hpc
            simp [createFallbackReview]
          | some r' =>
            by_cases h6 : r'.overall_score = 0 ∧ r'.readability_score = 0 ∧
                r'.interviewer_feedback = ""
            · rw [parseCore_gate h1 h2 h3' h4 h5 h6] at hpc
              cases hpc
              simp [createFallbackReview]
            · rw [parseCore_success h1 h2 h3' h4 h5 h6] at hpc
              cases hpc
              exact h6
        · rw [parseCore_imbalance h1 h2 h3' h4] at hpc
          cases hpc
          simp [createFallbackReview]

/-! ## Claim theorems -/

/-- C1: the claim says no input can make `parseAIResponse` or
`parseQuestions` panic and that the slice between the first opening and
last closing bracket is always in bounds.  This theorem evaluates the code
at the failing inputs: when the last closing bracket lies more than one
position before the first opening bracket (`"} {"`, `"] ["`), the Go slice
`response[start:end+1]` has `start > end+1` and panics (modelled by
`none`), so the claim is wrong about the code; the spec's no-panic
guarantee is clearly the intent, and the unchecked slice is the bug. -/
theorem c1_slice_panic_eval :
    parseAIResponse "\x7d \x7b" = none ∧ parseQuestions "] [" = none := by
  constructor <;> decide

/-- C2 counterexample: on the success path a valid JSON object that omits
schema keys yields a review whose issues, suggestions, feedback, follow-up
questions, complexity and test-coverage fields are all empty/zero — not
the documented defaults — refuting the claim that every field of every
returned `ReviewResult` is populated. -/
theorem c2_counterexample :
    parseAIResponse "\x7b\"overall_score\": 85\x7d" =
      some { overall_score := 85, issues := [], suggestions := [],
             interviewer_feedback := "", follow_up_questions := [],
             complexity := { time_complexity := "", space_complexity := "",
                             can_optimize := false, optimized_approach := "" },
             readability_score := 0, test_coverage := "" } := by
  decide

/-- C2 amended: full population holds on every fallback path — every
`createFallbackReview` value has score 50/50, exactly one issue, one
suggestion, non-empty feedback, three follow-up questions, non-empty
complexity texts and non-empty test coverage — and on the success path
the only population guarantee is that the three signal fields are never
simultaneously zero; other fields mirror the parsed JSON and may be
empty. -/
theorem c2_amended_population :
    (∀ reason raw : String,
      (createFallbackReview reason raw).overall_score = 50 ∧
      (createFallbackReview reason raw).readability_score = 50 ∧
      (createFallbackReview reason raw).issues.length = 1 ∧
      (createFallbackReview reason raw).suggestions.length = 1 ∧
      (createFallbackReview reason raw).interviewer_feedback ≠ "" ∧
      (createFallbackReview reason raw).follow_up_questions.length = 3 ∧
      (createFallbackReview reason raw).complexity.time_complexity ≠ "" ∧
      (createFallbackReview reason raw).complexity.space_complexity ≠ "" ∧
      (createFallbackReview reason raw).complexity.optimized_approach ≠ "" ∧
      (createFallbackReview reason raw).test_coverage ≠ "") ∧
    (∀ (s : String) (r : AICodeReview), parseAIResponse s = some r →
      ¬(r.overall_score = 0 ∧ r.readability_score = 0 ∧ r.interviewer_feedback = "")) := by
  constructor
  · intro reason raw
    refine ⟨rfl, rfl, rfl, rfl,
      string_append_ne_left _ (string_append_ne_left _ (by decide)), rfl, ?_, ?_, ?_, ?_⟩
    · show ("Unable to analyze" : String) ≠ ""
      decide
    · show ("Unable to analyze" : String) ≠ ""
      decide
    · show ("Rerun analysis after fixing any syntax issues" : String) ≠ ""
      decide
    · show ("Unable to assess due to parsing error" : String) ≠ ""
      decide
  · intro s r h
    exact parseAIResponse_signals h

set_option maxRecDepth 8000 in
/-- C2 amended, witness: the amended statement applied at the concrete
input `""`, whose result is the no-JSON fallback. -/
theorem c2_amended_population_witness :
    ¬(((createFallbackReview "No JSON found in AI response" "").overall_score = 0) ∧
      ((createFallbackReview "No JSON found in AI response" "").readability_score = 0) ∧
      ((createFallbackReview "No JSON found in AI response" "").interviewer_feedback = "")) :=
  c2_amended_population.2 "" (createFallbackReview "No JSON found in AI response" "")
    (by decide)

set_option maxRecDepth 8000 in
/-- C4 counterexample: a truncated object whose candidate has two opening
braces and one closing brace (`{"overall_score": 60, "issues":
[{"type":"bug"}`) takes the total-failure path, not a partial-recovery
path: the result is the canonical fallback with the neutral score 50 —
the claim says the score would be 60 or 0, never 50. -/
theorem c4_counterexample :
    parseAIResponse "\x7b\"overall_score\": 60, \"issues\": [\x7b\"type\":\"bug\"\x7d" =
      some (createFallbackReview "Incomplete JSON response"
        "\x7b\"overall_score\": 60, \"issues\": [\x7b\"type\":\"bug\"\x7d") ∧
    (createFallbackReview "Incomplete JSON response"
        "\x7b\"overall_score\": 60, \"issues\": [\x7b\"type\":\"bug\"\x7d").overall_score = 50 := by
  constructor
  · decide
  · rfl

/-- C4 amended: whenever the extracted candidate has unequal counts of
opening and closing braces, `parseAIResponse` returns the canonical
total-failure default `createFallbackReview "Incomplete JSON response"`
echoing the candidate — overall score 50 and a single synthesized parsing
issue of severity medium.  (The partial-recovery behaviour the claim
describes exists only in the browser-side handler
`handlePartialAIResponse` of `company-onboarding.js`, which runs when the
HTTP response body itself fails to parse; the Go extraction layer never
takes it.) -/
theorem c4_amended_imbalance (s : String) (i j : Nat)
    (h1 : idxOf (goCleanResponse s.data) '{' = some i)
    (h2 : lastIdx (goCleanResponse s.data) '}' = some j)
    (h3 : i ≤ j + 1)
    (h4 : (((goCleanResponse s.data).drop i).take (j + 1 - i)).count '{' ≠
          (((goCleanResponse s.data).drop i).take (j + 1 - i)).count '}') :
    parseAIResponse s =
      some (createFallbackReview "Incomplete JSON response"
        (String.mk (((goCleanResponse s.data).drop i).take (j + 1 - i)))) ∧
    (createFallbackReview "Incomplete JSON response"
        (String.mk (((goCleanResponse s.data).drop i).take (j + 1 - i)))).overall_score = 50 ∧
    (createFallbackReview "Incomplete JSON response"
        (String.mk (((goCleanResponse s.data).drop i).take (j + 1 - i)))).issues =
      [{ type := "parsing", severity := "medium", line_number := 0,
         description := "AI response parsing issue: Incomplete JSON response",
         solution := "Try running the AI review again, or check your code for syntax issues." }] :=
  ⟨parseCore_imbalance h1 h2 h3 h4, rfl, rfl⟩

set_option maxRecDepth 8000 in
/-- C4 amended, witness: the amended statement applied to the concrete
truncated input `"{{}"`. -/
theorem c4_amended_imbalance_witness :
    parseAIResponse "\x7b\x7b\x7d" =
      some (createFallbackReview "Incomplete JSON response"
        (String.mk (((goCleanResponse "\x7b\x7b\x7d".data).drop 0).take (2 + 1 - 0)))) :=
  (c4_amended_imbalance "\x7b\x7b\x7d" 0 2 (by decide) (by decide) (by decide) (by decide)).1

/-- C3: total-failure behaviour.  (i) When the cleaned reply contains no
opening or no closing brace, the result is the canonical default with
reason "No JSON found in AI response", echoing the cleaned reply.
(ii) When a brace-balanced candidate fails JSON parsing, the result is the
canonical default with reason "JSON parsing error", echoing the candidate.
(iii) The canonical default in closed form: scores 50/50, exactly one
parsing issue naming the failure reason, one troubleshooting suggestion,
"Unable to analyze" complexity, three generic follow-up questions, and a
feedback string that echoes at most the first 500 characters of the
offending text (ellipsis appended when truncated, a fixed message when
empty) inside the encouraging prompt. -/
theorem c3_total_failure_default (s : String) :
    ((idxOf (goCleanResponse s.data) '{' = none ∨
        lastIdx (goCleanResponse s.data) '}' = none) →
      parseAIResponse s =
        some (createFallbackReview "No JSON found in AI response"
          (String.mk (goCleanResponse s.data)))) ∧
    (∀ i j, idxOf (goCleanResponse s.data) '{' = some i →
      lastIdx (goCleanResponse s.data) '}' = some j → i ≤ j + 1 →
      (((goCleanResponse s.data).drop i).take (j + 1 - i)).count '{' =
        (((goCleanResponse s.data).drop i).take (j + 1 - i)).count '}' →
      jsonUnmarshalReview (((goCleanResponse s.data).drop i).take (j + 1 - i)) = none →
      parseAIResponse s =
        some (createFallbackReview "JSON parsing error"
          (String.mk (((goCleanResponse s.data).drop i).take (j + 1 - i))))) ∧
    (∀ reason raw : String,
      createFallbackReview reason raw =
        { overall_score := 50
          issues := [{ type := "parsing", severity := "medium", line_number := 0,
                       description := "AI response parsing issue: " ++ reason,
                       solution := "Try running the AI review again, or check your code for syntax issues." }]
          suggestions := [{ category := "troubleshooting", priority := "medium",
                            description := "If this keeps happening, try simplifying your code or breaking it into smaller functions.",
                            example_ := "" }]
          interviewer_feedback :=
            "I'm having trouble analyzing your code automatically. " ++
              (if raw = "" then "AI provided an empty or malformed response. Please try again."
               else if 500 < raw.data.length then String.mk (raw.data.take 500) ++ "..."
               else raw) ++
              " Let's focus on the core logic - can you walk me through your approach?"
          follow_up_questions :=
            ["Can you explain your algorithm step by step?",
             "What's the time complexity of your solution?",
             "How would you handle edge cases?"]
          complexity := { time_complexity := "Unable to analyze",
                          space_complexity := "Unable to analyze",
                          can_optimize := false,
                          optimized_approach := "Rerun analysis after fixing any syntax issues" }
          readability_score := 50
          test_coverage := "Unable to assess due to parsing error" }) :=
  ⟨fun h => parseCore_noJson h,
   fun _ _ h1 h2 h3 h4 h5 => parseCore_parse_error h1 h2 h3 h4 h5,
   createFallbackReview_eq⟩

set_option maxRecDepth 8000 in
/-- C3, witness: the empty reply takes the no-JSON branch and yields the
canonical default. -/
theorem c3_total_failure_default_witness :
    parseAIResponse "" =
      some (createFallbackReview "No JSON found in AI response"
        (String.mk (goCleanResponse "".data))) :=
  (c3_total_failure_default "").1 (Or.inl (by decide))

/-- C5: the validation gate.  When the candidate unmarshals cleanly into a
review `r`, the total-failure default (reason "Incomplete AI response") is
returned exactly when all three signal fields are zero-valued, and then
the zeroed object itself is never returned (the fallback differs from it,
having score 50); when at least one signal field is non-zero, the parsed
object itself is returned. -/
theorem c5_validation_gate (s : String) (r : AICodeReview) (i j : Nat)
    (h1 : idxOf (goCleanResponse s.data) '{' = some i)
    (h2 : lastIdx (goCleanResponse s.data) '}' = some j)
    (h3 : i ≤ j + 1)
    (h4 : (((goCleanResponse s.data).drop i).take (j + 1 - i)).count '{' =
          (((goCleanResponse s.data).drop i).take (j + 1 - i)).count '}')
    (h5 : jsonUnmarshalReview (((goCleanResponse s.data).drop i).take (j + 1 - i)) = some r) :
    ((r.overall_score = 0 ∧ r.readability_score = 0 ∧ r.interviewer_feedback = "") →
      parseAIResponse s =
        some (createFallbackReview "Incomplete AI response"
          (String.mk (((goCleanResponse s.data).drop i).take (j + 1 - i)))) ∧
      createFallbackReview "Incomplete AI response"
          (String.mk (((goCleanResponse s.data).drop i).take (j + 1 - i))) ≠ r) ∧
    (¬(r.overall_score = 0 ∧ r.readability_score = 0 ∧ r.interviewer_feedback = "") →
      parseAIResponse s = some r) := by
  constructor
  · intro h6
    refine ⟨parseCore_gate h1 h2 h3 h4 h5 h6, ?_⟩
    intro he
    have hsc := congrArg AICodeReview.overall_score he
    rw [createFallbackReview_overall, h6.1] at hsc
    exact absurd hsc (by decide)
  · intro h6
    exact parseCore_success h1 h2 h3 h4 h5 h6

set_option maxRecDepth 8000 in
/-- C5, witness: the spec's all-zero example parses cleanly and is routed
to the total-failure default rather than returned verbatim. -/
theorem c5_validation_gate_witness :
    parseAIResponse "\x7b\"overall_score\": 0, \"readability_score\": 0, \"interviewer_feedback\": \"\"\x7d" =
      some (createFallbackReview "Incomplete AI response"
        (String.mk (((goCleanResponse "\x7b\"overall_score\": 0, \"readability_score\": 0, \"interviewer_feedback\": \"\"\x7d".data).drop 0).take (71 + 1 - 0)))) :=
  ((c5_validation_gate _ zeroReview 0 71 (by decide) (by decide) (by decide) (by decide)
    (by decide)).1 (by decide)).1

set_option maxRecDepth 12000 in
/-- C6 counterexample: the claim is not true of *every* valid JSON object
supplying all fields with a non-zero signal.  The spec's own example
object with `interviewer_feedback` changed to the single character `}` is
valid JSON supplying every field, with overall score 85, yet the
brace-count check (`ai.go` 746-751) sees two `\x7b` against three `\x7d`
and routes to the "Incomplete JSON response" fallback (score 50) instead
of returning the object. -/
theorem c6_counterexample :
    parseAIResponse "\x7b\"overall_score\": 85, \"issues\": [], \"suggestions\": [], \"interviewer_feedback\": \"\x7d\", \"follow_up_questions\": [], \"complexity\": \x7b\"time_complexity\":\"O(n)\",\"space_complexity\":\"O(1)\",\"can_optimize\":false,\"optimized_approach\":\"\"\x7d, \"readability_score\": 90, \"test_coverage\":\"ok\"\x7d" =
      some (createFallbackReview "Incomplete JSON response"
        "\x7b\"overall_score\": 85, \"issues\": [], \"suggestions\": [], \"interviewer_feedback\": \"\x7d\", \"follow_up_questions\": [], \"complexity\": \x7b\"time_complexity\":\"O(n)\",\"space_complexity\":\"O(1)\",\"can_optimize\":false,\"optimized_approach\":\"\"\x7d, \"readability_score\": 90, \"test_coverage\":\"ok\"\x7d") ∧
    parseAIResponse "\x7b\"overall_score\": 85, \"issues\": [], \"suggestions\": [], \"interviewer_feedback\": \"\x7d\", \"follow_up_questions\": [], \"complexity\": \x7b\"time_complexity\":\"O(n)\",\"space_complexity\":\"O(1)\",\"can_optimize\":false,\"optimized_approach\":\"\"\x7d, \"readability_score\": 90, \"test_coverage\":\"ok\"\x7d" ≠
      some { overall_score := 85, issues := [], suggestions := [],
             interviewer_feedback := "\x7d", follow_up_questions := [],
             complexity := { time_complexity := "O(n)", space_complexity := "O(1)",
                             can_optimize := false, optimized_approach := "" },
             readability_score := 90, test_coverage := "ok" } := by
  decide

/-- C6 (amended): exact round trip under the brace-balance proviso.
Whenever the cleaned reply is exactly a JSON object candidate (first `{`
at position 0, last `}` at the end), its brace counts balance, it
unmarshals cleanly into `r`, and `r` passes the validation gate,
`parseAIResponse` returns exactly `r` — every field of the result equals
the parsed input value and no defaulting occurs.  The balance hypothesis
`h4` is necessary: `c6_counterexample` exhibits a valid all-field object
with a non-zero signal that fails it and is routed to a fallback. -/
theorem c6_exact_round_trip (s : String) (r : AICodeReview)
    (h1 : idxOf (goCleanResponse s.data) '{' = some 0)
    (h2 : lastIdx (goCleanResponse s.data) '}' = some ((goCleanResponse s.data).length - 1))
    (h4 : (goCleanResponse s.data).count '{' = (goCleanResponse s.data).count '}')
    (h5 : jsonUnmarshalReview (goCleanResponse s.data) = some r)
    (h6 : ¬(r.overall_score = 0 ∧ r.readability_score = 0 ∧ r.interviewer_feedback = "")) :
    parseAIResponse s = some r := by
  have hlen : 0 < (goCleanResponse s.data).length := idxOf_some_lt h1
  have hcand : ((goCleanResponse s.data).drop 0).take
      ((goCleanResponse s.data).length - 1 + 1 - 0) = goCleanResponse s.data := by
    rw [List.drop_zero, show (goCleanResponse s.data).length - 1 + 1 - 0 =
      (goCleanResponse s.data).length from by omega, List.take_length]
  exact parseCore_success h1 h2 (by omega) (by rw [hcand]; exact h4)
    (by rw [hcand]; exact h5) h6

set_option maxRecDepth 12000 in
/-- C6, witness: the spec's fully-populated example object round-trips
exactly, with every field equal to the input value. -/
theorem c6_exact_round_trip_witness :
    parseAIResponse "\x7b\"overall_score\": 85, \"issues\": [], \"suggestions\": [], \"interviewer_feedback\": \"Good job\", \"follow_up_questions\": [], \"complexity\": \x7b\"time_complexity\":\"O(n)\",\"space_complexity\":\"O(1)\",\"can_optimize\":false,\"optimized_approach\":\"\"\x7d, \"readability_score\": 90, \"test_coverage\":\"ok\"\x7d" =
      some { overall_score := 85, issues := [], suggestions := [],
             interviewer_feedback := "Good job", follow_up_questions := [],
             complexity := { time_complexity := "O(n)", space_complexity := "O(1)",
                             can_optimize := false, optimized_approach := "" },
             readability_score := 90, test_coverage := "ok" } :=
  c6_exact_round_trip _ _ (by decide) (by decide) (by decide) (by decide) (by decide)

/-- C8 counterexample: `parseQuestions` does not return the fixed default
list on *every* failure — when the last `]` lies more than one position
before the first `[`, the slice `response[start:end+1]` panics (modelled
by `none`) instead of producing the default. -/
theorem c8_counterexample : parseQuestions "]  [" = none := by decide

/-- C8 amended: apart from inputs whose last `]` precedes the first `[`
by more than one position (where the unchecked slice panics — the same
bug as C1), `parseQuestions` behaves as claimed: it takes the substring
from the first `[` to the last `]`; if that candidate parses as a JSON
string array the exact list is returned, order preserved, and on any
other failure (no bracket pair, or an unparsable candidate) it returns
exactly the fixed 3-element default list, with no partial recovery. -/
theorem c8_array_extraction (s : String) :
    ((idxOf s.data '[' = none ∨ lastIdx s.data ']' = none) →
      parseQuestions s =
        some ["What's the time complexity of your solution?",
              "How would you handle edge cases?",
              "Can you optimize this further?"]) ∧
    (∀ i j, idxOf s.data '[' = some i → lastIdx s.data ']' = some j → i ≤ j + 1 →
      (∀ qs, jsonUnmarshalStrings ((s.data.drop i).take (j + 1 - i)) = some qs →
        parseQuestions s = some qs) ∧
      (jsonUnmarshalStrings ((s.data.drop i).take (j + 1 - i)) = none →
        parseQuestions s =
          some ["What's the time complexity of your solution?",
                "How would you handle edge cases?",
                "Can you optimize this further?"])) := by
  constructor
  · intro h
    rcases h with h | h
    · simp only [parseQuestions, h]
      rfl
    · simp only [parseQuestions, h]
      cases idxOf s.data '[' <;> rfl
  · intro i j h1 h2 h3
    constructor
    · intro qs hqs
      simp only [parseQuestions, h1, h2, if_neg (by omega : ¬ i > j + 1), hqs]
    · intro hqs
      simp only [parseQuestions, h1, h2, if_neg (by omega : ¬ i > j + 1), hqs]
      rfl

/-- C8, witness: the spec's two examples — a two-element array round-trips
exactly in order, and a no-bracket input yields exactly the fixed default
list. -/
theorem c8_array_extraction_witness :
    parseQuestions "[\"Q1?\", \"Q2?\"]" = some ["Q1?", "Q2?"] ∧
    parseQuestions "not an array" =
      some ["What's the time complexity of your solution?",
            "How would you handle edge cases?",
            "Can you optimize this further?"] :=
  ⟨((c8_array_extraction _).2 0 13 (by decide) (by decide) (by decide)).1 _ (by decide),
   (c8_array_extraction _).1 (Or.inl (by decide))⟩

/-- C9: the plain-text path.  `parseChatResponse` trims whitespace, strips
at most one leading and one trailing fence marker without touching a
language tag, and replaces an empty result with a fixed
prompt-continuation string; `parseHint` trims (stripping no fences, which
the claim's "at most one pair" allows) and replaces an empty result with
its fixed prompt-continuation string.  Neither result is ever empty, and
neither function invokes the JSON machinery (their definitions contain no
parser call).  The concrete conjunct shows a language tag is *not*
removed. -/
theorem c9_plain_text :
    (∀ s : String,
      parseChatResponse s ≠ "" ∧
      parseHint s ≠ "" ∧
      parseChatResponse s =
        (if String.mk (goTrimSpace (goDropSuf "```".data
              (goDropPre "```".data (goTrimSpace s.data)))) = ""
         then "I'm here to help! Could you rephrase your question?"
         else String.mk (goTrimSpace (goDropSuf "```".data
              (goDropPre "```".data (goTrimSpace s.data))))) ∧
      parseHint s =
        (if String.mk (goTrimSpace s.data) = ""
         then "Consider the problem step by step. What's the core requirement here?"
         else String.mk (goTrimSpace s.data))) ∧
    parseChatResponse "```json\nhi\n```" = "json\nhi" := by
  constructor
  · intro s
    refine ⟨?_, ?_, rfl, rfl⟩
    · simp only [parseChatResponse]
      split
      · decide
      · assumption
    · simp only [parseHint]
      split
      · decide
      · assumption
  · decide

/-! ## Lemmas for the fence-stripping claim -/

theorem hasPre_iff {p l : List Char} : hasPre p l = true ↔ ∃ r, l = p ++ r := by
  induction p generalizing l with
  | nil => simp [hasPre]
  | cons c p ih =>
    cases l with
    | nil =>
      simp [hasPre]
    | cons x t =>
      simp only [hasPre, Bool.and_eq_true, decide_eq_true_eq, ih, List.cons_append,
        List.cons.injEq]
      constructor
      · rintro ⟨rfl, r, rfl⟩
        exact ⟨r, rfl, rfl⟩
      · rintro ⟨r, rfl, rfl⟩
        exact ⟨rfl, r, rfl⟩

theorem goDropPre_decomp (p l : List Char) :
    goDropPre p l = l ∨ l = p ++ goDropPre p l := by
  unfold goDropPre
  by_cases h : hasPre p l = true
  · obtain ⟨r, rfl⟩ := hasPre_iff.mp h
    rw [if_pos h, List.drop_left]
    exact Or.inr rfl
  · rw [if_neg h]
    exact Or.inl rfl

theorem goDropSuf_decomp (p l : List Char) :
    goDropSuf p l = l ∨ l = goDropSuf p l ++ p := by
  unfold goDropSuf
  rcases goDropPre_decomp p.reverse l.reverse with h | h
  · left
    rw [h, List.reverse_reverse]
  · right
    conv_lhs => rw [← List.reverse_reverse l, h]
    rw [List.reverse_append, List.reverse_reverse]

theorem goTrimSpace_decomp (l : List Char) :
    ∃ a b, l = a ++ goTrimSpace l ++ b ∧
      (∀ c ∈ a, wsChar c = true) ∧ (∀ c ∈ b, wsChar c = true) := by
  refine ⟨l.takeWhile wsChar, ((l.dropWhile wsChar).reverse.takeWhile wsChar).reverse,
    ?_, fun c hc => List.mem_takeWhile_imp hc, fun c hc =>
      List.mem_takeWhile_imp (List.mem_reverse.mp hc)⟩
  have hm : l.dropWhile wsChar =
      goTrimSpace l ++ ((l.dropWhile wsChar).reverse.takeWhile wsChar).reverse :=
    calc l.dropWhile wsChar
        = ((l.dropWhile wsChar).reverse).reverse := (List.reverse_reverse _).symm
      _ = ((l.dropWhile wsChar).reverse.takeWhile wsChar ++
            (l.dropWhile wsChar).reverse.dropWhile wsChar).reverse := by
            rw [List.takeWhile_append_dropWhile]
      _ = ((l.dropWhile wsChar).reverse.dropWhile wsChar).reverse ++
            ((l.dropWhile wsChar).reverse.takeWhile wsChar).reverse := by
            rw [List.reverse_append]
      _ = goTrimSpace l ++ ((l.dropWhile wsChar).reverse.takeWhile wsChar).reverse := rfl
  conv_lhs => rw [← List.takeWhile_append_dropWhile wsChar l, hm]
  rw [List.append_assoc]

/-- `parseCore` after both delimiters are found at `i ≤ j + 1`: everything
else depends only on the candidate slice. -/
theorem parseCore_found {l : List Char} {i j : Nat}
    (h1 : idxOf l '{' = some i) (h2 : lastIdx l '}' = some j) (h3 : i ≤ j + 1) :
    parseCore l =
      (let jsonStr := (l.drop i).take (j + 1 - i)
       if jsonStr.count '{' ≠ jsonStr.count '}' then
         some (createFallbackReview "Incomplete JSON response" (String.mk jsonStr))
       else
         match jsonUnmarshalReview jsonStr with
         | none => some (createFallbackReview "JSON parsing error" (String.mk jsonStr))
         | some review =>
           if review.overall_score = 0 ∧ review.readability_score = 0 ∧
               review.interviewer_feedback = "" then
             some (createFallbackReview "Incomplete AI response" (String.mk jsonStr))
           else some review) := by
  simp only [parseCore, h1, h2, if_neg (by omega : ¬ i > j + 1)]

/-- Surrounding a brace-containing text with junk that contains no opening
brace on the left and no closing brace on the right does not change the
result of the extraction core. -/
theorem parseCore_extend {p u q : List Char}
    (hp : '{' ∉ p) (hq : '}' ∉ q) (hu1 : '{' ∈ u) (hu2 : '}' ∈ u) :
    parseCore (p ++ u ++ q) = parseCore u := by
  obtain ⟨i, hi⟩ := idxOf_isSome_of_mem hu1
  obtain ⟨j, hj⟩ := lastIdx_isSome_of_mem hu2
  have hI : idxOf (p ++ u ++ q) '{' = some (p.length + i) := idxOf_sandwich hp hi
  have hJ : lastIdx (p ++ u ++ q) '}' = some (p.length + j) := lastIdx_sandwich hq hj
  have hjlt : j < u.length := lastIdx_some_lt hj
  by_cases hpanic : i > j + 1
  · rw [parseCore_panic hI hJ (by omega), parseCore_panic hi hj hpanic]
  · have h3 : i ≤ j + 1 := by omega
    have hslice : ((p ++ u ++ q).drop (p.length + i)).take (p.length + j + 1 - (p.length + i)) =
        (u.drop i).take (j + 1 - i) := by
      rw [show p.length + j + 1 - (p.length + i) = j + 1 - i from by omega]
      exact slice_sandwich h3 hjlt
    rw [parseCore_found hI hJ (by omega), parseCore_found hi hj h3]
    simp only [hslice]

theorem mem_mid {x : Char} {l a r b : List Char}
    (h : l = a ++ r ++ b) (hx : x ∈ l) (hna : x ∉ a) (hnb : x ∉ b) : x ∈ r := by
  subst h
  simp only [List.mem_append] at hx
  rcases hx with (hx | hx) | hx
  · exact absurd hx hna
  · exact hx
  · exact absurd hx hnb

theorem parseCore_goDropPre (p : List Char) {u : List Char}
    (hp1 : '{' ∉ p) (hp2 : '}' ∉ p) (h1 : '{' ∈ u) (h2 : '}' ∈ u) :
    parseCore u = parseCore (goDropPre p u) ∧
      '{' ∈ goDropPre p u ∧ '}' ∈ goDropPre p u := by
  rcases goDropPre_decomp p u with he | he
  · rw [he]
    exact ⟨rfl, h1, h2⟩
  · have hm1 : '{' ∈ goDropPre p u :=
      mem_mid (by rw [List.append_nil]; exact he) h1 hp1 (by simp)
    have hm2 : '}' ∈ goDropPre p u :=
      mem_mid (by rw [List.append_nil]; exact he) h2 hp2 (by simp)
    have hext := parseCore_extend (p := p) (q := []) hp1 (by simp) hm1 hm2
    rw [List.append_nil] at hext
    refine ⟨?_, hm1, hm2⟩
    conv_lhs => rw [he]
    exact hext

theorem parseCore_goDropSuf (p : List Char) {u : List Char}
    (hp1 : '{' ∉ p) (hp2 : '}' ∉ p) (h1 : '{' ∈ u) (h2 : '}' ∈ u) :
    parseCore u = parseCore (goDropSuf p u) ∧
      '{' ∈ goDropSuf p u ∧ '}' ∈ goDropSuf p u := by
  rcases goDropSuf_decomp p u with he | he
  · rw [he]
    exact ⟨rfl, h1, h2⟩
  · have hm1 : '{' ∈ goDropSuf p u :=
      mem_mid (l := u) (a := []) (by simpa using he) h1 (by simp) hp1
    have hm2 : '}' ∈ goDropSuf p u :=
      mem_mid (l := u) (a := []) (by simpa using he) h2 (by simp) hp2
    have hext := parseCore_extend (p := []) (q := p) (by simp) hp2 hm1 hm2
    simp only [List.nil_append] at hext
    exact ⟨by conv_lhs => rw [he, hext], hm1, hm2⟩

theorem parseCore_goTrimSpace {u : List Char} (h1 : '{' ∈ u) (h2 : '}' ∈ u) :
    parseCore u = parseCore (goTrimSpace u) ∧
      '{' ∈ goTrimSpace u ∧ '}' ∈ goTrimSpace u := by
  obtain ⟨a, b, hdec, hwa, hwb⟩ := goTrimSpace_decomp u
  have hna : '{' ∉ a := fun hm => absurd (hwa _ hm) (by decide)
  have hnb : '}' ∉ b := fun hm => absurd (hwb _ hm) (by decide)
  have hna' : '}' ∉ a := fun hm => absurd (hwa _ hm) (by decide)
  have hnb' : '{' ∉ b := fun hm => absurd (hwb _ hm) (by decide)
  have hm1 : '{' ∈ goTrimSpace u := mem_mid hdec h1 hna hnb'
  have hm2 : '}' ∈ goTrimSpace u := mem_mid hdec h2 hna' hnb
  have hext := parseCore_extend (p := a) (q := b) hna hnb hm1 hm2
  exact ⟨by conv_lhs => rw [hdec, hext], hm1, hm2⟩

/-- On brace-containing input the cleaning pipeline changes nothing that
the extraction core looks at: only backtick/whitespace junk outside the
first `{` and last `}` is removed. -/
theorem parseCore_goClean {l : List Char} (h1 : '{' ∈ l) (h2 : '}' ∈ l) :
    parseCore (goCleanResponse l) = parseCore (goTrimSpace l) := by
  obtain ⟨e0, hb01, hb02⟩ := parseCore_goTrimSpace h1 h2
  obtain ⟨e1, hb11, hb12⟩ :=
    parseCore_goDropPre "```json".data (by decide) (by decide) hb01 hb02
  obtain ⟨e2, hb21, hb22⟩ :=
    parseCore_goDropPre "```".data (by decide) (by decide) hb11 hb12
  obtain ⟨e3, hb31, hb32⟩ :=
    parseCore_goDropSuf "```".data (by decide) (by decide) hb21 hb22
  obtain ⟨e4, _, _⟩ := parseCore_goTrimSpace hb31 hb32
  unfold goCleanResponse
  rw [← e4, ← e3, ← e2, ← e1]

theorem goTrimSpace_cons_ws {c : Char} {l : List Char} (h : wsChar c = true) :
    goTrimSpace (c :: l) = goTrimSpace l := by
  unfold goTrimSpace
  rw [List.dropWhile_cons, if_pos h]

theorem goTrimSpace_append_ws {c : Char} {l : List Char} (h : wsChar c = true) :
    goTrimSpace (l ++ [c]) = goTrimSpace l := by
  unfold goTrimSpace
  rw [List.dropWhile_append]
  by_cases he : (l.dropWhile wsChar).isEmpty
  · rw [if_pos he]
    rw [List.isEmpty_iff] at he
    rw [he]
    simp [List.dropWhile, h]
  · rw [if_neg he]
    rw [List.reverse_append, List.reverse_singleton, List.singleton_append,
      List.dropWhile_cons, if_pos h]

theorem goTrimSpace_eq_self {l : List Char}
    (h1 : ∃ c t, l = c :: t ∧ wsChar c = false)
    (h2 : ∃ c t, l.reverse = c :: t ∧ wsChar c = false) :
    goTrimSpace l = l := by
  obtain ⟨c, t, hl, hc⟩ := h1
  obtain ⟨c', t', hr, hc'⟩ := h2
  subst hl
  unfold goTrimSpace
  rw [List.dropWhile_cons, if_neg (by simp [hc]), hr, List.dropWhile_cons,
    if_neg (by simp [hc']), ← hr, List.reverse_reverse]

set_option maxRecDepth 8000 in
/-- C7 counterexample: when the inner text itself begins with a fence
marker and contains no JSON braces, the fenced and unfenced replies clean
to different texts, so the no-JSON fallback echoes different feedback and
the results differ — refuting the claim for *every* string. -/
theorem c7_counterexample :
    parseAIResponse ("```json\n" ++ "```x" ++ "\n```") ≠ parseAIResponse "```x" := by
  decide

/-- C7 amended: for every string that contains at least one `{` and at
least one `}`, wrapping it in ```` ```json ```` fence markers does not
change the result of `parseAIResponse`: the cleaning pipeline and the
bracket search only discard backtick/whitespace junk outside the first
`{` and the last `}`.  (Only the no-JSON fallback path, excluded here, can
observe fence-stripping differences, through its echoed feedback.) -/
theorem c7_fence_invariance (s : String) (h1 : '{' ∈ s.data) (h2 : '}' ∈ s.data) :
    parseAIResponse ("```json\n" ++ s ++ "\n```") = parseAIResponse s := by
  have hF : ("```json\n" ++ s ++ "\n```").data =
      "```json\n".data ++ s.data ++ "\n```".data := by
    rw [String.data_append, String.data_append]
  have hb1 : '{' ∈ "```json\n".data ++ s.data ++ "\n```".data := by
    simp only [List.mem_append]
    exact Or.inl (Or.inr h1)
  have hb2 : '}' ∈ "```json\n".data ++ s.data ++ "\n```".data := by
    simp only [List.mem_append]
    exact Or.inl (Or.inr h2)
  have e1 := parseCore_goClean hb1 hb2
  have e2 : goTrimSpace ("```json\n".data ++ s.data ++ "\n```".data) =
      "```json\n".data ++ s.data ++ "\n```".data := by
    apply goTrimSpace_eq_self
    · refine ⟨'`', ("``json\n".data ++ s.data) ++ "\n```".data, ?_, by decide⟩
      rw [show "```json\n".data = '`' :: "``json\n".data from rfl]
      simp
    · refine ⟨'`', ('`' :: '`' :: '\n' :: []) ++ ("```json\n".data ++ s.data).reverse,
        ?_, by decide⟩
      rw [List.reverse_append,
        show ("\n```".data).reverse = '`' :: '`' :: '`' :: '\n' :: [] from by decide]
      simp
  have e3 : parseCore ("```json\n".data ++ s.data ++ "\n```".data) = parseCore s.data :=
    parseCore_extend (by decide) (by decide) h1 h2
  have e4 := parseCore_goTrimSpace h1 h2
  have e5 := parseCore_goClean h1 h2
  show parseCore (goCleanResponse ("```json\n" ++ s ++ "\n```").data) =
    parseCore (goCleanResponse s.data)
  rw [hF, e1, e2, e3, e5]
  exact e4.1

set_option maxRecDepth 8000 in
/-- C7 amended, witness: a brace-containing reply gives the same review
fenced and unfenced. -/
theorem c7_fence_invariance_witness :
    parseAIResponse ("```json\n" ++ "\x7b\"overall_score\": 70, \"interviewer_feedback\": \"F\"\x7d" ++ "\n```") =
      parseAIResponse "\x7b\"overall_score\": 70, \"interviewer_feedback\": \"F\"\x7d" :=
  c7_fence_invariance _ (by decide) (by decide)

/-! ## Print/parse round-trip lemmas, used for the serialization claim -/

theorem toDigitChar_isDigit {d : Nat} (h : d < 10) : (toDigitChar d).isDigit = true := by
  interval_cases d <;> decide

theorem toDigitChar_toNat {d : Nat} (h : d < 10) : (toDigitChar d).toNat = 48 + d := by
  interval_cases d <;> decide

theorem toDigitChar_eq_zero_iff {d : Nat} (h : d < 10) : toDigitChar d = '0' ↔ d = 0 := by
  interval_cases d <;> decide

theorem hexVal_hexDig {d : Nat} (h : d < 16) : hexVal (hexDig d) = some d := by
  interval_cases d <;> decide

theorem natDigitsRev_eq_digits (fuel : Nat) : ∀ n, n ≤ fuel → natDigitsRev fuel n = Nat.digits 10 n := by
  induction fuel with
  | zero =>
    intro n hn
    interval_cases n
    simp [natDigitsRev]
  | succ f ih =>
    intro n hn
    unfold natDigitsRev
    by_cases h0 : n = 0
    · rw [if_pos h0, h0]
      simp
    · rw [if_neg h0, ih (n / 10) (by omega),
        Nat.digits_def' (by omega : 1 < 10) (by omega : 0 < n)]

theorem readDigits_spec : ∀ (ds : List Nat) (acc : Nat) (rest : List Char),
    (∀ d ∈ ds, d < 10) → (∀ c, rest.head? = some c → c.isDigit = false) →
    readDigits acc (ds.map toDigitChar ++ rest) =
      (ds.foldl (fun a d => 10 * a + d) acc, rest) := by
  intro ds
  induction ds with
  | nil =>
    intro acc rest _ hrest
    cases rest with
    | nil => rfl
    | cons c t =>
      simp only [List.map_nil, List.nil_append, readDigits]
      rw [hrest c rfl]
      simp
  | cons d ds ih =>
    intro acc rest hds hrest
    have hd : d < 10 := hds d (by simp)
    simp only [List.map_cons, List.cons_append, readDigits,
      toDigitChar_isDigit hd, if_pos]
    rw [toDigitChar_toNat hd, show 48 + d - 48 = d from by omega]
    exact ih _ _ (fun x hx => hds x (by simp [hx])) hrest

theorem foldl_digits_eq (ds : List Nat) : ∀ acc : Nat,
    ds.foldl (fun a d => 10 * a + d) acc =
      acc * 10 ^ ds.length + Nat.ofDigits 10 ds.reverse := by
  induction ds with
  | nil =>
    intro acc
    simp [Nat.ofDigits]
  | cons d ds ih =>
    intro acc
    simp only [List.foldl_cons, ih, List.reverse_cons, Nat.ofDigits_append,
      List.length_cons, List.length_reverse, Nat.ofDigits_singleton]
    ring

theorem printNat_head (m : Nat) :
    ∃ d t, printNat m = toDigitChar d :: t ∧ d < 10 := by
  by_cases h0 : m = 0
  · exact ⟨0, [], by rw [h0]; rfl, by omega⟩
  · have hdig : printNat m = (Nat.digits 10 m).reverse.map toDigitChar := by
      rw [printNat, if_neg h0, natDigitsRev_eq_digits m m le_rfl, List.map_reverse]
    have hne : Nat.digits 10 m ≠ [] := Nat.digits_ne_nil_iff_ne_zero.mpr h0
    cases hh : (Nat.digits 10 m).reverse with
    | nil => exact absurd (by simpa using congrArg List.reverse hh) hne
    | cons b0 bt =>
      refine ⟨b0, bt.map toDigitChar, by rw [hdig, hh]; rfl, ?_⟩
      exact Nat.digits_lt_base (by omega) (List.mem_reverse.mp (by rw [hh]; simp))

theorem parseDigitsJ_printNat (n : Nat) (rest : List Char)
    (hrest : ∀ c, rest.head? = some c → c.isDigit = false) :
    parseDigitsJ (printNat n ++ rest) = some (n, rest) := by
  by_cases h0 : n = 0
  · subst h0
    cases rest with
    | nil => decide
    | cons c t =>
      have hc := hrest c rfl
      simp [printNat, parseDigitsJ, hc]
  · have hdig : printNat n = (Nat.digits 10 n).reverse.map toDigitChar := by
      rw [printNat, if_neg h0, natDigitsRev_eq_digits n n le_rfl, List.map_reverse]
    have hne : Nat.digits 10 n ≠ [] := Nat.digits_ne_nil_iff_ne_zero.mpr h0
    obtain ⟨b0, bt, hbs⟩ : ∃ b0 bt, (Nat.digits 10 n).reverse = b0 :: bt := by
      cases hh : (Nat.digits 10 n).reverse with
      | nil => exact absurd (by simpa using congrArg List.reverse hh) hne
      | cons x xs => exact ⟨x, xs, rfl⟩
    have hlt : ∀ d ∈ (Nat.digits 10 n).reverse, d < 10 := fun d hd =>
      Nat.digits_lt_base (by omega) (List.mem_reverse.mp hd)
    have hb0lt : b0 < 10 := hlt b0 (by rw [hbs]; simp)
    have hb0ne : b0 ≠ 0 := by
      have hlast := Nat.getLast_digit_ne_zero 10 (m := n) h0
      rw [List.getLast_eq_head_reverse] at hlast
      simp only [hbs, List.head_cons] at hlast
      exact hlast
    rw [hdig, hbs]
    simp only [List.map_cons, List.cons_append, parseDigitsJ]
    rw [if_neg (by rw [toDigitChar_eq_zero_iff hb0lt]; exact hb0ne),
      if_pos (toDigitChar_isDigit hb0lt)]
    rw [toDigitChar_toNat hb0lt, show 48 + b0 - 48 = b0 from by omega]
    rw [readDigits_spec bt b0 rest (fun d hd => hlt d (by rw [hbs]; simp [hd])) hrest]
    have hval : bt.foldl (fun a d => 10 * a + d) b0 = n := by
      have h1 : ((Nat.digits 10 n).reverse).foldl (fun a d => 10 * a + d) 0 = n := by
        rw [foldl_digits_eq, List.reverse_reverse, Nat.ofDigits_digits]
        omega
      rw [hbs] at h1
      simpa using h1
    rw [hval]

theorem parseNum_printInt (n : Int) (rest : List Char)
    (hrest : ∀ c, rest.head? = some c → c.isDigit = false) :
    parseNum (printInt n ++ rest) = some (n, rest) := by
  by_cases hneg : n < 0
  · rw [printInt, if_pos hneg, List.cons_append]
    show (if ('-' : Char) = '-' then
        Option.map (fun p => (-(p.1 : Int), p.2)) (parseDigitsJ (printNat (-n).toNat ++ rest))
      else Option.map (fun p => ((p.1 : Int), p.2))
        (parseDigitsJ ('-' :: (printNat (-n).toNat ++ rest)))) = some (n, rest)
    rw [if_pos rfl, parseDigitsJ_printNat _ _ hrest]
    simp only [Option.map_some', Option.some.injEq, Prod.mk.injEq]
    exact ⟨by omega, trivial⟩
  · rw [printInt, if_neg hneg]
    obtain ⟨d, t, hdt, hd⟩ := printNat_head n.toNat
    rw [hdt, List.cons_append]
    show (if toDigitChar d = '-' then
        Option.map (fun p => (-(p.1 : Int), p.2)) (parseDigitsJ (t ++ rest))
      else Option.map (fun p => ((p.1 : Int), p.2))
        (parseDigitsJ (toDigitChar d :: (t ++ rest)))) = some (n, rest)
    rw [if_neg (by
      intro hc
      have hv := toDigitChar_toNat hd
      rw [hc] at hv
      simp at hv
      omega)]
    rw [← List.cons_append, ← hdt, parseDigitsJ_printNat _ _ hrest]
    simp only [Option.map_some', Option.some.injEq, Prod.mk.injEq]
    exact ⟨by omega, trivial⟩

theorem parseStrBody_escape (s : List Char) : ∀ rest : List Char,
    parseStrBody (escapeStr s ++ '"' :: rest) = some (s, rest) := by
  induction s with
  | nil =>
    intro rest
    simp only [escapeStr, List.nil_append]
    rw [parseStrBody.eq_def]
    simp
  | cons c t ih =>
    intro rest
    show parseStrBody (escapeChar c ++ escapeStr t ++ '"' :: rest) = some (c :: t, rest)
    unfold escapeChar
    by_cases h1 : c = '"'
    · subst h1
      rw [if_pos rfl]
      simp only [List.cons_append, List.nil_append]
      rw [parseStrBody.eq_def]
      simp [ih]
    · rw [if_neg h1]
      by_cases h2 : c = '\\'
      · subst h2
        rw [if_pos rfl]
        simp only [List.cons_append, List.nil_append]
        rw [parseStrBody.eq_def]
        simp [ih]
      · rw [if_neg h2]
        by_cases h3 : c = '\n'
        · subst h3
          rw [if_pos rfl]
          simp only [List.cons_append, List.nil_append]
          rw [parseStrBody.eq_def]
          simp [ih]
        · rw [if_neg h3]
          by_cases h4 : c = '\r'
          · subst h4
            rw [if_pos rfl]
            simp only [List.cons_append, List.nil_append]
            rw [parseStrBody.eq_def]
            simp [ih]
          · rw [if_neg h4]
            by_cases h5 : c = '\t'
            · subst h5
              rw [if_pos rfl]
              simp only [List.cons_append, List.nil_append]
              rw [parseStrBody.eq_def]
              simp [ih]
            · rw [if_neg h5]
              by_cases h6 : c = '<' ∨ c = '>' ∨ c = '&' ∨ c.toNat < 32 ∨
                  c.toNat = 8232 ∨ c.toNat = 8233
              · rw [if_pos h6]
                have hlt : c.toNat < 65536 := by
                  have hv := c.val.toNat_lt
                  rcases h6 with h | h | h | h | h | h
                  all_goals first
                    | (subst h; decide)
                    | omega
                have ha : c.toNat / 4096 % 16 < 16 := Nat.mod_lt _ (by omega)
                have hb : c.toNat / 256 % 16 < 16 := Nat.mod_lt _ (by omega)
                have hc' : c.toNat / 16 % 16 < 16 := Nat.mod_lt _ (by omega)
                have hd : c.toNat % 16 < 16 := Nat.mod_lt _ (by omega)
                have harith : (((c.toNat / 4096 % 16) * 16 + c.toNat / 256 % 16) * 16 +
                    c.toNat / 16 % 16) * 16 + c.toNat % 16 = c.toNat := by omega
                show parseStrBody ('\\' :: 'u' :: hex4 c.toNat ++ escapeStr t ++ '"' :: rest) =
                  some (c :: t, rest)
                unfold hex4
                simp only [List.cons_append, List.nil_append]
                rw [parseStrBody.eq_def]
                simp only [hexVal_hexDig ha, hexVal_hexDig hb, hexVal_hexDig hc',
                  hexVal_hexDig hd, ih]
                simp [harith, Char.ofNat_toNat]
              · rw [if_neg h6]
                push_neg at h6
                obtain ⟨hn1, hn2, hn3, hn4, _, _⟩ := h6
                show parseStrBody (c :: (escapeStr t ++ '"' :: rest)) = some (c :: t, rest)
                rw [parseStrBody.eq_def]
                simp only [if_neg h1, if_neg h2]
                rw [if_neg (by omega : ¬ c.toNat < 32), ih rest]
                rfl

theorem parseStrBody_key {k : List Char} (hk : escapeStr k = k) (rest : List Char) :
    parseStrBody (k ++ '"' :: rest) = some (k, rest) := by
  conv_lhs => rw [← hk]
  exact parseStrBody_escape k rest

theorem parseVal_printStr (f : Nat) (s : List Char) (rest : List Char) :
    parseVal (f + 1) (printStr s ++ rest) = some (.jstr s, rest) := by
  show parseVal (f + 1) ('"' :: ((escapeStr s ++ ['"']) ++ rest)) = some (.jstr s, rest)
  rw [parseVal.eq_def]
  simp only [skipWS, jsonWs, List.append_assoc, List.singleton_append]
  rw [if_neg (by decide)]
  simp only [decide_eq_true_eq, if_neg (by decide : ¬('"' : Char) = '{'),
    if_neg (by decide : ¬('"' : Char) = '['), if_pos (rfl : ('"' : Char) = '"'),
    parseStrBody_escape]
  rfl

theorem parseVal_printBool (f : Nat) (b : Bool) (rest : List Char) :
    parseVal (f + 1) (printBool b ++ rest) = some (.jbool b, rest) := by
  cases b
  · show parseVal (f + 1) ('f' :: 'a' :: 'l' :: 's' :: 'e' :: rest) = some (.jbool false, rest)
    rw [parseVal.eq_def]
    simp [skipWS, jsonWs, dropExact]
  · show parseVal (f + 1) ('t' :: 'r' :: 'u' :: 'e' :: rest) = some (.jbool true, rest)
    rw [parseVal.eq_def]
    simp [skipWS, jsonWs, dropExact]

theorem toDigitChar_ne {d : Nat} (h : d < 10) (x : Char)
    (hx : ¬(48 ≤ x.toNat ∧ x.toNat ≤ 57)) : toDigitChar d ≠ x := by
  intro he
  have hv := toDigitChar_toNat h
  rw [he] at hv
  exact hx ⟨by omega, by omega⟩

theorem jsonWs_toDigitChar {d : Nat} (h : d < 10) : jsonWs (toDigitChar d) = false := by
  have h1 := toDigitChar_ne h ' ' (by decide)
  have h2 := toDigitChar_ne h '\t' (by decide)
  have h3 := toDigitChar_ne h '\n' (by decide)
  have h4 := toDigitChar_ne h '\r' (by decide)
  simp [jsonWs, h1, h2, h3, h4]

theorem parseVal_other (f : Nat) (x : Char) (t : List Char)
    (hws : jsonWs x = false) (h1 : x ≠ '{') (h2 : x ≠ '[') (h3 : x ≠ '"')
    (h4 : x ≠ 't') (h5 : x ≠ 'f') (h6 : x ≠ 'n') :
    parseVal (f + 1) (x :: t) = (parseNum (x :: t)).map (fun p => (.jnum p.1, p.2)) := by
  rw [parseVal.eq_def]
  simp only [skipWS, hws, Bool.false_eq_true, if_false, if_neg h1, if_neg h2, if_neg h3,
    if_neg h4, if_neg h5, if_neg h6]

theorem parseVal_printInt (f : Nat) (n : Int) (rest : List Char)
    (hrest : ∀ c, rest.head? = some c → c.isDigit = false) :
    parseVal (f + 1) (printInt n ++ rest) = some (.jnum n, rest) := by
  have hstep : ∀ x t', printInt n ++ rest = x :: t' → jsonWs x = false ∧ x ≠ '{' ∧
      x ≠ '[' ∧ x ≠ '"' ∧ x ≠ 't' ∧ x ≠ 'f' ∧ x ≠ 'n' := by
    intro x t' hx
    by_cases hneg : n < 0
    · rw [printInt, if_pos hneg, List.cons_append] at hx
      cases hx
      exact ⟨by decide, by decide, by decide, by decide, by decide, by decide, by decide⟩
    · obtain ⟨d, t, hdt, hd⟩ := printNat_head n.toNat
      rw [printInt, if_neg hneg, hdt, List.cons_append] at hx
      cases hx
      exact ⟨jsonWs_toDigitChar hd, toDigitChar_ne hd _ (by decide),
        toDigitChar_ne hd _ (by decide), toDigitChar_ne hd _ (by decide),
        toDigitChar_ne hd _ (by decide), toDigitChar_ne hd _ (by decide),
        toDigitChar_ne hd _ (by decide)⟩
  obtain ⟨x, t', hxt⟩ : ∃ x t', printInt n ++ rest = x :: t' := by
    by_cases hneg : n < 0
    · rw [printInt, if_pos hneg, List.cons_append]
      exact ⟨_, _, rfl⟩
    · obtain ⟨d, t, hdt, _⟩ := printNat_head n.toNat
      rw [printInt, if_neg hneg, hdt, List.cons_append]
      exact ⟨_, _, rfl⟩
  obtain ⟨hws, h1, h2, h3, h4, h5, h6⟩ := hstep x t' hxt
  rw [hxt, parseVal_other f x t' hws h1 h2 h3 h4 h5 h6, ← hxt,
    parseNum_printInt n rest hrest]
  rfl

theorem parseVal_obj (f : Nat) (t' : List Char) (ms : List (List Char × Jval))
    (r : List Char) (hm : parseMembers f ('"' :: t') = some (ms, r)) :
    parseVal (f + 1) ('{' :: '"' :: t') = some (.jobj ms, r) := by
  rw [parseVal.eq_def]
  simp [skipWS, jsonWs, chomp, hm]

theorem parseVal_arr_empty (f : Nat) (r : List Char) :
    parseVal (f + 1) ('[' :: ']' :: r) = some (.jarr [], r) := by
  rw [parseVal.eq_def]
  simp [skipWS, jsonWs, chomp]

theorem skipWS_not_ws {c : Char} {t : List Char} (h : jsonWs c = false) :
    skipWS (c :: t) = c :: t := by
  unfold skipWS
  simp [h]

theorem parseVal_arr_nonempty (f : Nat) (c : Char) (t r : List Char) (vs : List Jval)
    (hc1 : jsonWs c = false) (hc2 : c ≠ ']')
    (h : parseElems f (c :: t) = some (vs, r)) :
    parseVal (f + 1) ('[' :: c :: t) = some (.jarr vs, r) := by
  rw [parseVal.eq_def]
  simp only [skipWS_not_ws (show jsonWs '[' = false by decide), skipWS_not_ws hc1]
  simp [chomp, if_neg hc2, h]

theorem parseMembers_last (f : Nat) (k : List Char) (hk : escapeStr k = k)
    (body r₄ : List Char) (v : Jval)
    (hv : parseVal f body = some (v, '}' :: r₄)) :
    parseMembers (f + 1) ('"' :: (k ++ '"' :: ':' :: body)) = some ([(k, v)], r₄) := by
  rw [parseMembers.eq_def]
  simp only [skipWS_not_ws (show jsonWs '"' = false by decide)]
  simp only [if_pos (rfl : ('"' : Char) = '"'), parseStrBody_key hk]
  simp only [skipWS_not_ws (show jsonWs ':' = false by decide), hv,
    skipWS_not_ws (show jsonWs '}' = false by decide)]
  rfl

theorem parseMembers_more (f : Nat) (k : List Char) (hk : escapeStr k = k)
    (body r₄ : List Char) (v : Jval) (ms : List (List Char × Jval)) (rfin : List Char)
    (hv : parseVal f body = some (v, ',' :: r₄))
    (hms : parseMembers f r₄ = some (ms, rfin)) :
    parseMembers (f + 1) ('"' :: (k ++ '"' :: ':' :: body)) = some ((k, v) :: ms, rfin) := by
  rw [parseMembers.eq_def]
  simp only [skipWS_not_ws (show jsonWs '"' = false by decide)]
  simp only [if_pos (rfl : ('"' : Char) = '"'), parseStrBody_key hk]
  simp only [skipWS_not_ws (show jsonWs ':' = false by decide), hv,
    skipWS_not_ws (show jsonWs ',' = false by decide), hms]
  rfl

theorem parseElems_last (f : Nat) (body r : List Char) (v : Jval)
    (hv : parseVal f body = some (v, ']' :: r)) :
    parseElems (f + 1) body = some ([v], r) := by
  rw [parseElems.eq_def]
  simp only [hv, skipWS_not_ws (show jsonWs ']' = false by decide)]

theorem parseElems_more (f : Nat) (body r : List Char) (v : Jval) (vs : List Jval)
    (rfin : List Char)
    (hv : parseVal f body = some (v, ',' :: r))
    (hvs : parseElems f r = some (vs, rfin)) :
    parseElems (f + 1) body = some (v :: vs, rfin) := by
  rw [parseElems.eq_def]
  simp only [hv, skipWS_not_ws (show jsonWs ',' = false by decide), hvs]
  rfl

theorem not_digit_head_comma (X : List Char) :
    ∀ c, (',' :: X).head? = some c → c.isDigit = false := by
  intro c hc
  simp at hc
  subst hc
  decide


theorem escStrC_eq (s : List Char) : ∀ r : List Char, escStrC s r = escapeStr s ++ r := by
  induction s with
  | nil => intro r; simp [escStrC, escapeStr]
  | cons c t ih => intro r; simp [escStrC, escapeStr, ih, List.append_assoc]

theorem printStrC_eq (s rest : List Char) : printStrC s rest = printStr s ++ rest := by
  simp [printStrC, printStr, escStrC_eq, List.append_assoc]

theorem parseVal_printStrC (f : Nat) (s rest : List Char) :
    parseVal (f + 1) (printStrC s rest) = some (.jstr s, rest) := by
  rw [printStrC_eq]
  exact parseVal_printStr f s rest

theorem parseVal_printIssueC (f : Nat) (i : CodeIssue) (rest : List Char) :
    parseVal (f + 7) (printIssueC i rest) = some (issueToJ i, rest) := by
  have h5 := parseVal_printStrC f i.solution.data ('}' :: rest)
  have hm5 := parseMembers_last (f + 1) kSolution (by decide) _ _ _ h5
  have h4 := parseVal_printStrC (f + 1) i.description.data
    (',' :: '"' :: (kSolution ++ '"' :: ':' :: printStrC i.solution.data ('}' :: rest)))
  have hm4 := parseMembers_more (f + 2) kDescription (by decide) _ _ _ _ _ h4 hm5
  have h3 := parseVal_printInt (f + 2) i.line_number
    (',' :: '"' :: (kDescription ++ '"' :: ':' :: printStrC i.description.data
      (',' :: '"' :: (kSolution ++ '"' :: ':' :: printStrC i.solution.data ('}' :: rest)))))
    (not_digit_head_comma _)
  have hm3 := parseMembers_more (f + 3) kLineNumber (by decide) _ _ _ _ _ h3 hm4
  have h2 := parseVal_printStrC (f + 3) i.severity.data
    (',' :: '"' :: (kLineNumber ++ '"' :: ':' :: (printInt i.line_number ++
      ',' :: '"' :: (kDescription ++ '"' :: ':' :: printStrC i.description.data
      (',' :: '"' :: (kSolution ++ '"' :: ':' :: printStrC i.solution.data ('}' :: rest)))))))
  have hm2 := parseMembers_more (f + 4) kSeverity (by decide) _ _ _ _ _ h2 hm3
  have h1 := parseVal_printStrC (f + 4) i.type.data
    (',' :: '"' :: (kSeverity ++ '"' :: ':' :: printStrC i.severity.data
      (',' :: '"' :: (kLineNumber ++ '"' :: ':' :: (printInt i.line_number ++
      ',' :: '"' :: (kDescription ++ '"' :: ':' :: printStrC i.description.data
      (',' :: '"' :: (kSolution ++ '"' :: ':' :: printStrC i.solution.data ('}' :: rest)))))))))
  have hm1 := parseMembers_more (f + 5) kType (by decide) _ _ _ _ _ h1 hm2
  exact parseVal_obj (f + 6) _ _ _ hm1

theorem parseVal_printSuggestionC (f : Nat) (sg : CodeSuggestion) (rest : List Char) :
    parseVal (f + 6) (printSuggestionC sg rest) = some (suggestionToJ sg, rest) := by
  have h4 := parseVal_printStrC f sg.example_.data ('}' :: rest)
  have hm4 := parseMembers_last (f + 1) kExample (by decide) _ _ _ h4
  have h3 := parseVal_printStrC (f + 1) sg.description.data
    (',' :: '"' :: (kExample ++ '"' :: ':' :: printStrC sg.example_.data ('}' :: rest)))
  have hm3 := parseMembers_more (f + 2) kDescription (by decide) _ _ _ _ _ h3 hm4
  have h2 := parseVal_printStrC (f + 2) sg.priority.data
    (',' :: '"' :: (kDescription ++ '"' :: ':' :: printStrC sg.description.data
      (',' :: '"' :: (kExample ++ '"' :: ':' :: printStrC sg.example_.data ('}' :: rest)))))
  have hm2 := parseMembers_more (f + 3) kPriority (by decide) _ _ _ _ _ h2 hm3
  have h1 := parseVal_printStrC (f + 3) sg.category.data
    (',' :: '"' :: (kPriority ++ '"' :: ':' :: printStrC sg.priority.data
      (',' :: '"' :: (kDescription ++ '"' :: ':' :: printStrC sg.description.data
      (',' :: '"' :: (kExample ++ '"' :: ':' :: printStrC sg.example_.data ('}' :: rest)))))))
  have hm1 := parseMembers_more (f + 4) kCategory (by decide) _ _ _ _ _ h1 hm2
  exact parseVal_obj (f + 5) _ _ _ hm1

theorem parseVal_printComplexityC (f : Nat) (c : ComplexityAnalysis) (rest : List Char) :
    parseVal (f + 6) (printComplexityC c rest) = some (complexityToJ c, rest) := by
  have h4 := parseVal_printStrC f c.optimized_approach.data ('}' :: rest)
  have hm4 := parseMembers_last (f + 1) kOptimizedApproach (by decide) _ _ _ h4
  have h3 := parseVal_printBool (f + 1) c.can_optimize
    (',' :: '"' :: (kOptimizedApproach ++ '"' :: ':' ::
      printStrC c.optimized_approach.data ('}' :: rest)))
  have hm3 := parseMembers_more (f + 2) kCanOptimize (by decide) _ _ _ _ _ h3 hm4
  have h2 := parseVal_printStrC (f + 2) c.space_complexity.data
    (',' :: '"' :: (kCanOptimize ++ '"' :: ':' :: (printBool c.can_optimize ++
      ',' :: '"' :: (kOptimizedApproach ++ '"' :: ':' ::
      printStrC c.optimized_approach.data ('}' :: rest)))))
  have hm2 := parseMembers_more (f + 3) kSpaceComplexity (by decide) _ _ _ _ _ h2 hm3
  have h1 := parseVal_printStrC (f + 3) c.time_complexity.data
    (',' :: '"' :: (kSpaceComplexity ++ '"' :: ':' :: printStrC c.space_complexity.data
      (',' :: '"' :: (kCanOptimize ++ '"' :: ':' :: (printBool c.can_optimize ++
      ',' :: '"' :: (kOptimizedApproach ++ '"' :: ':' ::
      printStrC c.optimized_approach.data ('}' :: rest)))))))
  have hm1 := parseMembers_more (f + 4) kTimeComplexity (by decide) _ _ _ _ _ h1 hm2
  exact parseVal_obj (f + 5) _ _ _ hm1

theorem printIssuesElemsC_head (i : CodeIssue) (t : List CodeIssue) (rest : List Char) :
    ∃ t₂, printIssuesElemsC (i :: t) rest = '\x7b' :: t₂ := by
  cases t <;> exact ⟨_, rfl⟩

theorem printSuggestionsElemsC_head (sg : CodeSuggestion) (t : List CodeSuggestion)
    (rest : List Char) :
    ∃ t₂, printSuggestionsElemsC (sg :: t) rest = '\x7b' :: t₂ := by
  cases t <;> exact ⟨_, rfl⟩

theorem printQuestionsElemsC_head (q : String) (t : List String) (rest : List Char) :
    ∃ t₂, printQuestionsElemsC (q :: t) rest = '"' :: t₂ := by
  cases t <;> exact ⟨_, rfl⟩

theorem parseElems_printIssuesElemsC :
    ∀ is : List CodeIssue, is ≠ [] → ∀ F : Nat, is.length + 7 ≤ F → ∀ rest : List Char,
      parseElems F (printIssuesElemsC is rest) = some (is.map issueToJ, rest) := by
  intro is
  induction is with
  | nil => intro h; cases h rfl
  | cons i t ih =>
    intro _ F hF rest
    cases t with
    | nil =>
      obtain ⟨f, rfl⟩ : ∃ f, F = f + 8 := ⟨F - 8, by simp at hF; omega⟩
      show parseElems (f + 8) (printIssueC i (']' :: rest)) = some ([issueToJ i], rest)
      exact parseElems_last (f + 7) _ _ _ (parseVal_printIssueC f i (']' :: rest))
    | cons j u =>
      simp only [List.length_cons] at hF
      obtain ⟨f, rfl⟩ : ∃ f, F = f + u.length + 9 := ⟨F - (u.length + 9), by omega⟩
      show parseElems (f + u.length + 9)
          (printIssueC i (',' :: printIssuesElemsC (j :: u) rest)) =
        some (issueToJ i :: (j :: u).map issueToJ, rest)
      exact parseElems_more (f + u.length + 8) _ _ _ _ _
        (parseVal_printIssueC (f + u.length + 1) i (',' :: printIssuesElemsC (j :: u) rest))
        (ih (by simp) (f + u.length + 8) (by simp only [List.length_cons]; omega) rest)

theorem parseVal_printIssuesArrC (is : List CodeIssue) :
    ∀ F : Nat, is.length + 8 ≤ F → ∀ rest : List Char,
      parseVal F (printIssuesArrC is rest) = some (.jarr (is.map issueToJ), rest) := by
  cases is with
  | nil =>
    intro F hF rest
    obtain ⟨f, rfl⟩ : ∃ f, F = f + 1 := ⟨F - 1, by omega⟩
    exact parseVal_arr_empty f rest
  | cons i t =>
    intro F hF rest
    simp only [List.length_cons] at hF
    obtain ⟨f, rfl⟩ : ∃ f, F = f + 1 := ⟨F - 1, by omega⟩
    obtain ⟨t₂, ht⟩ := printIssuesElemsC_head i t rest
    have he : parseElems f (printIssuesElemsC (i :: t) rest) =
        some ((i :: t).map issueToJ, rest) :=
      parseElems_printIssuesElemsC (i :: t) (by simp) f (by simp only [List.length_cons]; omega) rest
    rw [ht] at he
    show parseVal (f + 1) ('[' :: printIssuesElemsC (i :: t) rest) = _
    rw [ht]
    exact parseVal_arr_nonempty f _ t₂ rest _ (by decide) (by decide) he

theorem parseElems_printSuggestionsElemsC :
    ∀ sgs : List CodeSuggestion, sgs ≠ [] → ∀ F : Nat, sgs.length + 6 ≤ F →
      ∀ rest : List Char,
        parseElems F (printSuggestionsElemsC sgs rest) =
          some (sgs.map suggestionToJ, rest) := by
  intro sgs
  induction sgs with
  | nil => intro h; cases h rfl
  | cons s t ih =>
    intro _ F hF rest
    cases t with
    | nil =>
      obtain ⟨f, rfl⟩ : ∃ f, F = f + 7 := ⟨F - 7, by simp at hF; omega⟩
      show parseElems (f + 7) (printSuggestionC s (']' :: rest)) =
        some ([suggestionToJ s], rest)
      exact parseElems_last (f + 6) _ _ _ (parseVal_printSuggestionC f s (']' :: rest))
    | cons j u =>
      simp only [List.length_cons] at hF
      obtain ⟨f, rfl⟩ : ∃ f, F = f + u.length + 8 := ⟨F - (u.length + 8), by omega⟩
      show parseElems (f + u.length + 8)
          (printSuggestionC s (',' :: printSuggestionsElemsC (j :: u) rest)) =
        some (suggestionToJ s :: (j :: u).map suggestionToJ, rest)
      exact parseElems_more (f + u.length + 7) _ _ _ _ _
        (parseVal_printSuggestionC (f + u.length + 1) s
          (',' :: printSuggestionsElemsC (j :: u) rest))
        (ih (by simp) (f + u.length + 7) (by simp only [List.length_cons]; omega) rest)

theorem parseVal_printSuggestionsArrC (sgs : List CodeSuggestion) :
    ∀ F : Nat, sgs.length + 7 ≤ F → ∀ rest : List Char,
      parseVal F (printSuggestionsArrC sgs rest) =
        some (.jarr (sgs.map suggestionToJ), rest) := by
  cases sgs with
  | nil =>
    intro F hF rest
    obtain ⟨f, rfl⟩ : ∃ f, F = f + 1 := ⟨F - 1, by omega⟩
    exact parseVal_arr_empty f rest
  | cons s t =>
    intro F hF rest
    simp only [List.length_cons] at hF
    obtain ⟨f, rfl⟩ : ∃ f, F = f + 1 := ⟨F - 1, by omega⟩
    obtain ⟨t₂, ht⟩ := printSuggestionsElemsC_head s t rest
    have he : parseElems f (printSuggestionsElemsC (s :: t) rest) =
        some ((s :: t).map suggestionToJ, rest) :=
      parseElems_printSuggestionsElemsC (s :: t) (by simp) f (by simp only [List.length_cons]; omega) rest
    rw [ht] at he
    show parseVal (f + 1) ('[' :: printSuggestionsElemsC (s :: t) rest) = _
    rw [ht]
    exact parseVal_arr_nonempty f _ t₂ rest _ (by decide) (by decide) he

theorem parseElems_printQuestionsElemsC :
    ∀ qs : List String, qs ≠ [] → ∀ F : Nat, qs.length + 1 ≤ F → ∀ rest : List Char,
      parseElems F (printQuestionsElemsC qs rest) =
        some (qs.map (fun q => Jval.jstr q.data), rest) := by
  intro qs
  induction qs with
  | nil => intro h; cases h rfl
  | cons q t ih =>
    intro _ F hF rest
    cases t with
    | nil =>
      obtain ⟨f, rfl⟩ : ∃ f, F = f + 2 := ⟨F - 2, by simp at hF; omega⟩
      show parseElems (f + 2) (printStrC q.data (']' :: rest)) =
        some ([Jval.jstr q.data], rest)
      exact parseElems_last (f + 1) _ _ _ (parseVal_printStrC f q.data (']' :: rest))
    | cons j u =>
      simp only [List.length_cons] at hF
      obtain ⟨f, rfl⟩ : ∃ f, F = f + u.length + 3 := ⟨F - (u.length + 3), by omega⟩
      show parseElems (f + u.length + 3)
          (printStrC q.data (',' :: printQuestionsElemsC (j :: u) rest)) =
        some (Jval.jstr q.data :: (j :: u).map (fun x => Jval.jstr x.data), rest)
      exact parseElems_more (f + u.length + 2) _ _ _ _ _
        (parseVal_printStrC (f + u.length + 1) q.data
          (',' :: printQuestionsElemsC (j :: u) rest))
        (ih (by simp) (f + u.length + 2) (by simp only [List.length_cons]; omega) rest)

theorem parseVal_printQuestionsArrC (qs : List String) :
    ∀ F : Nat, qs.length + 2 ≤ F → ∀ rest : List Char,
      parseVal F (printQuestionsArrC qs rest) =
        some (.jarr (qs.map (fun q => Jval.jstr q.data)), rest) := by
  cases qs with
  | nil =>
    intro F hF rest
    obtain ⟨f, rfl⟩ : ∃ f, F = f + 1 := ⟨F - 1, by omega⟩
    exact parseVal_arr_empty f rest
  | cons q t =>
    intro F hF rest
    simp only [List.length_cons] at hF
    obtain ⟨f, rfl⟩ : ∃ f, F = f + 1 := ⟨F - 1, by omega⟩
    obtain ⟨t₂, ht⟩ := printQuestionsElemsC_head q t rest
    have he : parseElems f (printQuestionsElemsC (q :: t) rest) =
        some ((q :: t).map (fun x => Jval.jstr x.data), rest) :=
      parseElems_printQuestionsElemsC (q :: t) (by simp) f (by simp only [List.length_cons]; omega) rest
    rw [ht] at he
    show parseVal (f + 1) ('[' :: printQuestionsElemsC (q :: t) rest) = _
    rw [ht]
    exact parseVal_arr_nonempty f _ t₂ rest _ (by decide) (by decide) he

theorem parseVal_printReviewC (r : AICodeReview) :
    ∀ F : Nat,
      r.issues.length + r.suggestions.length + r.follow_up_questions.length + 13 ≤ F →
      ∀ rest : List Char,
        parseVal F (printReviewC r rest) = some (reviewToJ r, rest) := by
  intro F hF rest
  obtain ⟨g, hgL, rfl⟩ : ∃ g,
      (r.issues.length + r.suggestions.length + r.follow_up_questions.length ≤ g) ∧
        F = g + 13 :=
    ⟨F - 13, by omega, by omega⟩
  unfold printReviewC
  have h8 := parseVal_printStrC (g + 3) r.test_coverage.data ('}' :: rest)
  have hm8 := parseMembers_last (g + 4) kTestCoverage (by decide) _ _ _ h8
  have h7 := parseVal_printInt (g + 4) r.readability_score
    (',' :: '"' :: (kTestCoverage ++ '"' :: ':' :: printStrC r.test_coverage.data ('}' :: rest)))
    (not_digit_head_comma _)
  have hm7 := parseMembers_more (g + 5) kReadabilityScore (by decide) _ _ _ _ _ h7 hm8
  have h6 := parseVal_printComplexityC g r.complexity
    (',' :: '"' :: (kReadabilityScore ++ '"' :: ':' :: (printInt r.readability_score ++ ',' :: '"' :: (kTestCoverage ++ '"' :: ':' :: printStrC r.test_coverage.data ('}' :: rest)))))
  have hm6 := parseMembers_more (g + 6) kComplexity (by decide) _ _ _ _ _ h6 hm7
  have h5 := parseVal_printQuestionsArrC r.follow_up_questions (g + 7) (by omega)
    (',' :: '"' :: (kComplexity ++ '"' :: ':' :: printComplexityC r.complexity
      (',' :: '"' :: (kReadabilityScore ++ '"' :: ':' :: (printInt r.readability_score ++ ',' :: '"' :: (kTestCoverage ++ '"' :: ':' :: printStrC r.test_coverage.data ('}' :: rest)))))))
  have hm5 := parseMembers_more (g + 7) kFollowUpQuestions (by decide) _ _ _ _ _ h5 hm6
  have h4 := parseVal_printStrC (g + 7) r.interviewer_feedback.data
    (',' :: '"' :: (kFollowUpQuestions ++ '"' :: ':' :: printQuestionsArrC r.follow_up_questions
      (',' :: '"' :: (kComplexity ++ '"' :: ':' :: printComplexityC r.complexity
      (',' :: '"' :: (kReadabilityScore ++ '"' :: ':' :: (printInt r.readability_score ++ ',' :: '"' :: (kTestCoverage ++ '"' :: ':' :: printStrC r.test_coverage.data ('}' :: rest)))))))))
  have hm4 := parseMembers_more (g + 8) kInterviewerFeedback (by decide) _ _ _ _ _ h4 hm5
  have h3 := parseVal_printSuggestionsArrC r.suggestions (g + 9) (by omega)
    (',' :: '"' :: (kInterviewerFeedback ++ '"' :: ':' :: printStrC r.interviewer_feedback.data
      (',' :: '"' :: (kFollowUpQuestions ++ '"' :: ':' :: printQuestionsArrC r.follow_up_questions
      (',' :: '"' :: (kComplexity ++ '"' :: ':' :: printComplexityC r.complexity
      (',' :: '"' :: (kReadabilityScore ++ '"' :: ':' :: (printInt r.readability_score ++ ',' :: '"' :: (kTestCoverage ++ '"' :: ':' :: printStrC r.test_coverage.data ('}' :: rest)))))))))))
  have hm3 := parseMembers_more (g + 9) kSuggestions (by decide) _ _ _ _ _ h3 hm4
  have h2 := parseVal_printIssuesArrC r.issues (g + 10) (by omega)
    (',' :: '"' :: (kSuggestions ++ '"' :: ':' :: printSuggestionsArrC r.suggestions
      (',' :: '"' :: (kInterviewerFeedback ++ '"' :: ':' :: printStrC r.interviewer_feedback.data
      (',' :: '"' :: (kFollowUpQuestions ++ '"' :: ':' :: printQuestionsArrC r.follow_up_questions
      (',' :: '"' :: (kComplexity ++ '"' :: ':' :: printComplexityC r.complexity
      (',' :: '"' :: (kReadabilityScore ++ '"' :: ':' :: (printInt r.readability_score ++ ',' :: '"' :: (kTestCoverage ++ '"' :: ':' :: printStrC r.test_coverage.data ('}' :: rest)))))))))))))
  have hm2 := parseMembers_more (g + 10) kIssues (by decide) _ _ _ _ _ h2 hm3
  have h1 := parseVal_printInt (g + 10) r.overall_score
    (',' :: '"' :: (kIssues ++ '"' :: ':' :: printIssuesArrC r.issues
      (',' :: '"' :: (kSuggestions ++ '"' :: ':' :: printSuggestionsArrC r.suggestions
      (',' :: '"' :: (kInterviewerFeedback ++ '"' :: ':' :: printStrC r.interviewer_feedback.data
      (',' :: '"' :: (kFollowUpQuestions ++ '"' :: ':' :: printQuestionsArrC r.follow_up_questions
      (',' :: '"' :: (kComplexity ++ '"' :: ':' :: printComplexityC r.complexity
      (',' :: '"' :: (kReadabilityScore ++ '"' :: ':' :: (printInt r.readability_score ++ ',' :: '"' :: (kTestCoverage ++ '"' :: ':' :: printStrC r.test_coverage.data ('}' :: rest)))))))))))))))
    (not_digit_head_comma _)
  have hm1 := parseMembers_more (g + 11) kOverallScore (by decide) _ _ _ _ _ h1 hm2
  exact parseVal_obj (g + 12) _ _ _ hm1

theorem exsuffix_cons (c : Char) {X t : List Char} (h : ∃ q, X = q ++ t) :
    ∃ q, c :: X = q ++ t := by
  obtain ⟨q, rfl⟩ := h
  exact ⟨c :: q, rfl⟩

theorem exsuffix_append (a : List Char) {X t : List Char} (h : ∃ q, X = q ++ t) :
    ∃ q, a ++ X = q ++ t := by
  obtain ⟨q, rfl⟩ := h
  exact ⟨a ++ q, (List.append_assoc a q t).symm⟩

theorem exsuffix_of_exshift {P : List Char → List Char}
    (hP : ∀ u, ∃ q, P u = q ++ u) {B t : List Char} (h : ∃ q, B = q ++ t) :
    ∃ q, P B = q ++ t := by
  obtain ⟨q, rfl⟩ := h
  obtain ⟨p, hp⟩ := hP (q ++ t)
  exact ⟨p ++ q, by rw [hp, List.append_assoc]⟩

theorem printStrC_exshift (s : List Char) : ∀ u, ∃ q, printStrC s u = q ++ u :=
  fun u => ⟨printStr s, printStrC_eq s u⟩

theorem exsuffix_strC (s : List Char) {B t : List Char} (h : ∃ q, B = q ++ t) :
    ∃ q, printStrC s B = q ++ t :=
  exsuffix_of_exshift (printStrC_exshift s) h

theorem printIssueC_exshift (i : CodeIssue) : ∀ u, ∃ q, printIssueC i u = q ++ u := by
  intro u
  unfold printIssueC
  repeat
    first
    | exact ⟨[], rfl⟩
    | apply exsuffix_strC
    | apply exsuffix_cons
    | apply exsuffix_append

theorem printSuggestionC_exshift (sg : CodeSuggestion) :
    ∀ u, ∃ q, printSuggestionC sg u = q ++ u := by
  intro u
  unfold printSuggestionC
  repeat
    first
    | exact ⟨[], rfl⟩
    | apply exsuffix_strC
    | apply exsuffix_cons
    | apply exsuffix_append

theorem printComplexityC_exshift (c : ComplexityAnalysis) :
    ∀ u, ∃ q, printComplexityC c u = q ++ u := by
  intro u
  unfold printComplexityC
  repeat
    first
    | exact ⟨[], rfl⟩
    | apply exsuffix_strC
    | apply exsuffix_cons
    | apply exsuffix_append

theorem printIssuesElemsC_exshift :
    ∀ (is : List CodeIssue) (u : List Char), ∃ q, printIssuesElemsC is u = q ++ u := by
  intro is
  induction is with
  | nil => intro u; exact ⟨[], rfl⟩
  | cons i t ih =>
    intro u
    cases t with
    | nil =>
      show ∃ q, printIssueC i (']' :: u) = q ++ u
      exact exsuffix_of_exshift (printIssueC_exshift i) (exsuffix_cons ']' ⟨[], rfl⟩)
    | cons j v =>
      show ∃ q, printIssueC i (',' :: printIssuesElemsC (j :: v) u) = q ++ u
      exact exsuffix_of_exshift (printIssueC_exshift i) (exsuffix_cons ',' (ih u))

theorem printIssuesArrC_exshift (is : List CodeIssue) :
    ∀ u, ∃ q, printIssuesArrC is u = q ++ u := by
  intro u
  cases is with
  | nil => exact ⟨['[', ']'], rfl⟩
  | cons i t =>
    show ∃ q, '[' :: printIssuesElemsC (i :: t) u = q ++ u
    exact exsuffix_cons '[' (printIssuesElemsC_exshift (i :: t) u)

theorem printSuggestionsElemsC_exshift :
    ∀ (sgs : List CodeSuggestion) (u : List Char),
      ∃ q, printSuggestionsElemsC sgs u = q ++ u := by
  intro sgs
  induction sgs with
  | nil => intro u; exact ⟨[], rfl⟩
  | cons s t ih =>
    intro u
    cases t with
    | nil =>
      show ∃ q, printSuggestionC s (']' :: u) = q ++ u
      exact exsuffix_of_exshift (printSuggestionC_exshift s) (exsuffix_cons ']' ⟨[], rfl⟩)
    | cons j v =>
      show ∃ q, printSuggestionC s (',' :: printSuggestionsElemsC (j :: v) u) = q ++ u
      exact exsuffix_of_exshift (printSuggestionC_exshift s) (exsuffix_cons ',' (ih u))

theorem printSuggestionsArrC_exshift (sgs : List CodeSuggestion) :
    ∀ u, ∃ q, printSuggestionsArrC sgs u = q ++ u := by
  intro u
  cases sgs with
  | nil => exact ⟨['[', ']'], rfl⟩
  | cons s t =>
    show ∃ q, '[' :: printSuggestionsElemsC (s :: t) u = q ++ u
    exact exsuffix_cons '[' (printSuggestionsElemsC_exshift (s :: t) u)

theorem printQuestionsElemsC_exshift :
    ∀ (qs : List String) (u : List Char), ∃ q, printQuestionsElemsC qs u = q ++ u := by
  intro qs
  induction qs with
  | nil => intro u; exact ⟨[], rfl⟩
  | cons s t ih =>
    intro u
    cases t with
    | nil =>
      show ∃ q, printStrC s.data (']' :: u) = q ++ u
      exact exsuffix_strC s.data (exsuffix_cons ']' ⟨[], rfl⟩)
    | cons j v =>
      show ∃ q, printStrC s.data (',' :: printQuestionsElemsC (j :: v) u) = q ++ u
      exact exsuffix_strC s.data (exsuffix_cons ',' (ih u))

theorem printQuestionsArrC_exshift (qs : List String) :
    ∀ u, ∃ q, printQuestionsArrC qs u = q ++ u := by
  intro u
  cases qs with
  | nil => exact ⟨['[', ']'], rfl⟩
  | cons s t =>
    show ∃ q, '[' :: printQuestionsElemsC (s :: t) u = q ++ u
    exact exsuffix_cons '[' (printQuestionsElemsC_exshift (s :: t) u)

theorem marshalReview_head (r : AICodeReview) :
    ∃ t, marshalReview r = '\x7b' :: t :=
  ⟨_, rfl⟩

set_option maxRecDepth 4000 in
theorem marshalReview_ends (r : AICodeReview) :
    ∃ p, marshalReview r = p ++ ['\x7d'] := by
  unfold marshalReview printReviewC
  repeat
    first
    | exact ⟨[], rfl⟩
    | apply exsuffix_strC
    | apply exsuffix_of_exshift (printIssuesArrC_exshift r.issues)
    | apply exsuffix_of_exshift (printSuggestionsArrC_exshift r.suggestions)
    | apply exsuffix_of_exshift (printQuestionsArrC_exshift r.follow_up_questions)
    | apply exsuffix_of_exshift (printComplexityC_exshift r.complexity)
    | apply exsuffix_cons
    | apply exsuffix_append

theorem printStrC_len (s rest : List Char) :
    rest.length + 2 ≤ (printStrC s rest).length := by
  rw [printStrC_eq]
  simp only [printStr, List.length_append, List.length_cons]
  omega

theorem printIssueC_len (i : CodeIssue) (rest : List Char) :
    rest.length + 2 ≤ (printIssueC i rest).length := by
  simp only [printIssueC, printStrC_eq, printStr, List.length_cons, List.length_append]
  omega

theorem printSuggestionC_len (sg : CodeSuggestion) (rest : List Char) :
    rest.length + 2 ≤ (printSuggestionC sg rest).length := by
  simp only [printSuggestionC, printStrC_eq, printStr, List.length_cons, List.length_append]
  omega

theorem printComplexityC_len (c : ComplexityAnalysis) (rest : List Char) :
    rest.length + 2 ≤ (printComplexityC c rest).length := by
  simp only [printComplexityC, printStrC_eq, printStr, List.length_cons, List.length_append]
  omega

theorem printIssuesElemsC_len (is : List CodeIssue) :
    ∀ rest : List Char, is.length + rest.length ≤ (printIssuesElemsC is rest).length := by
  induction is with
  | nil => intro rest; simp [printIssuesElemsC]
  | cons i t ih =>
    intro rest
    cases t with
    | nil =>
      have h := printIssueC_len i (']' :: rest)
      simp only [List.length_cons] at h ⊢
      show 0 + 1 + rest.length ≤ (printIssueC i (']' :: rest)).length
      omega
    | cons j u =>
      have h1 := printIssueC_len i (',' :: printIssuesElemsC (j :: u) rest)
      have h2 := ih rest
      simp only [List.length_cons] at h1 h2 ⊢
      show u.length + 1 + 1 + rest.length ≤
        (printIssueC i (',' :: printIssuesElemsC (j :: u) rest)).length
      omega

theorem printIssuesArrC_len (is : List CodeIssue) (rest : List Char) :
    is.length + rest.length + 1 ≤ (printIssuesArrC is rest).length := by
  cases is with
  | nil =>
    show 0 + rest.length + 1 ≤ ('[' :: ']' :: rest).length
    simp
  | cons i t =>
    have h := printIssuesElemsC_len (i :: t) rest
    show (i :: t).length + rest.length + 1 ≤ ('[' :: printIssuesElemsC (i :: t) rest).length
    simp only [List.length_cons] at h ⊢
    omega

theorem printSuggestionsElemsC_len (sgs : List CodeSuggestion) :
    ∀ rest : List Char,
      sgs.length + rest.length ≤ (printSuggestionsElemsC sgs rest).length := by
  induction sgs with
  | nil => intro rest; simp [printSuggestionsElemsC]
  | cons s t ih =>
    intro rest
    cases t with
    | nil =>
      have h := printSuggestionC_len s (']' :: rest)
      simp only [List.length_cons] at h ⊢
      show 0 + 1 + rest.length ≤ (printSuggestionC s (']' :: rest)).length
      omega
    | cons j u =>
      have h1 := printSuggestionC_len s (',' :: printSuggestionsElemsC (j :: u) rest)
      have h2 := ih rest
      simp only [List.length_cons] at h1 h2 ⊢
      show u.length + 1 + 1 + rest.length ≤
        (printSuggestionC s (',' :: printSuggestionsElemsC (j :: u) rest)).length
      omega

theorem printSuggestionsArrC_len (sgs : List CodeSuggestion) (rest : List Char) :
    sgs.length + rest.length + 1 ≤ (printSuggestionsArrC sgs rest).length := by
  cases sgs with
  | nil =>
    show 0 + rest.length + 1 ≤ ('[' :: ']' :: rest).length
    simp
  | cons s t =>
    have h := printSuggestionsElemsC_len (s :: t) rest
    show (s :: t).length + rest.length + 1 ≤
      ('[' :: printSuggestionsElemsC (s :: t) rest).length
    simp only [List.length_cons] at h ⊢
    omega

theorem printQuestionsElemsC_len (qs : List String) :
    ∀ rest : List Char, qs.length + rest.length ≤ (printQuestionsElemsC qs rest).length := by
  induction qs with
  | nil => intro rest; simp [printQuestionsElemsC]
  | cons s t ih =>
    intro rest
    cases t with
    | nil =>
      have h := printStrC_len s.data (']' :: rest)
      simp only [List.length_cons] at h ⊢
      show 0 + 1 + rest.length ≤ (printStrC s.data (']' :: rest)).length
      omega
    | cons j u =>
      have h1 := printStrC_len s.data (',' :: printQuestionsElemsC (j :: u) rest)
      have h2 := ih rest
      simp only [List.length_cons] at h1 h2 ⊢
      show u.length + 1 + 1 + rest.length ≤
        (printStrC s.data (',' :: printQuestionsElemsC (j :: u) rest)).length
      omega

theorem printQuestionsArrC_len (qs : List String) (rest : List Char) :
    qs.length + rest.length + 1 ≤ (printQuestionsArrC qs rest).length := by
  cases qs with
  | nil =>
    show 0 + rest.length + 1 ≤ ('[' :: ']' :: rest).length
    simp
  | cons s t =>
    have h := printQuestionsElemsC_len (s :: t) rest
    show (s :: t).length + rest.length + 1 ≤ ('[' :: printQuestionsElemsC (s :: t) rest).length
    simp only [List.length_cons] at h ⊢
    omega

theorem printReviewC_len (r : AICodeReview) (rest : List Char) :
    r.issues.length + r.suggestions.length + r.follow_up_questions.length +
        rest.length + 11 ≤ (printReviewC r rest).length := by
  unfold printReviewC
  have hA := printIssuesArrC_len r.issues
    (',' :: '"' :: (kSuggestions ++ '"' :: ':' :: printSuggestionsArrC r.suggestions
      (',' :: '"' :: (kInterviewerFeedback ++ '"' :: ':' :: printStrC r.interviewer_feedback.data
      (',' :: '"' :: (kFollowUpQuestions ++ '"' :: ':' :: printQuestionsArrC r.follow_up_questions
      (',' :: '"' :: (kComplexity ++ '"' :: ':' :: printComplexityC r.complexity
      (',' :: '"' :: (kReadabilityScore ++ '"' :: ':' :: (printInt r.readability_score ++ ',' :: '"' :: (kTestCoverage ++ '"' :: ':' :: printStrC r.test_coverage.data ('}' :: rest)))))))))))))
  have hB := printSuggestionsArrC_len r.suggestions
    (',' :: '"' :: (kInterviewerFeedback ++ '"' :: ':' :: printStrC r.interviewer_feedback.data
      (',' :: '"' :: (kFollowUpQuestions ++ '"' :: ':' :: printQuestionsArrC r.follow_up_questions
      (',' :: '"' :: (kComplexity ++ '"' :: ':' :: printComplexityC r.complexity
      (',' :: '"' :: (kReadabilityScore ++ '"' :: ':' :: (printInt r.readability_score ++ ',' :: '"' :: (kTestCoverage ++ '"' :: ':' :: printStrC r.test_coverage.data ('}' :: rest)))))))))))
  have hC := printStrC_len r.interviewer_feedback.data
    (',' :: '"' :: (kFollowUpQuestions ++ '"' :: ':' :: printQuestionsArrC r.follow_up_questions
      (',' :: '"' :: (kComplexity ++ '"' :: ':' :: printComplexityC r.complexity
      (',' :: '"' :: (kReadabilityScore ++ '"' :: ':' :: (printInt r.readability_score ++ ',' :: '"' :: (kTestCoverage ++ '"' :: ':' :: printStrC r.test_coverage.data ('}' :: rest)))))))))
  have hD := printQuestionsArrC_len r.follow_up_questions
    (',' :: '"' :: (kComplexity ++ '"' :: ':' :: printComplexityC r.complexity
      (',' :: '"' :: (kReadabilityScore ++ '"' :: ':' :: (printInt r.readability_score ++ ',' :: '"' :: (kTestCoverage ++ '"' :: ':' :: printStrC r.test_coverage.data ('}' :: rest)))))))
  have hE := printComplexityC_len r.complexity
    (',' :: '"' :: (kReadabilityScore ++ '"' :: ':' :: (printInt r.readability_score ++ ',' :: '"' :: (kTestCoverage ++ '"' :: ':' :: printStrC r.test_coverage.data ('}' :: rest)))))
  have hG := printStrC_len r.test_coverage.data ('}' :: rest)
  simp only [List.length_cons, List.length_append] at hA hB hC hD hE hG ⊢
  omega

theorem parseJsonTop_marshal (r : AICodeReview) :
    parseJsonTop (marshalReview r) = some (reviewToJ r) := by
  have hlen := printReviewC_len r []
  simp only [List.length_nil] at hlen
  have hmr : marshalReview r = printReviewC r [] := rfl
  unfold parseJsonTop
  rw [hmr, parseVal_printReviewC r ((printReviewC r []).length + 2) (by omega) []]
  rfl

theorem stringMk_data (s : String) : String.mk s.data = s := rfl

theorem decodeIssue_issueToJ (i : CodeIssue) : decodeIssue (issueToJ i) = some i := by
  cases i with
  | mk a b c d e => rfl

theorem decList_issues (is : List CodeIssue) :
    decList decodeIssue (is.map issueToJ) = some is := by
  induction is with
  | nil => rfl
  | cons i t ih => simp [decList, decodeIssue_issueToJ, ih]

theorem decodeSuggestion_suggestionToJ (sg : CodeSuggestion) :
    decodeSuggestion (suggestionToJ sg) = some sg := by
  cases sg with
  | mk a b c d => rfl

theorem decList_suggestions (sgs : List CodeSuggestion) :
    decList decodeSuggestion (sgs.map suggestionToJ) = some sgs := by
  induction sgs with
  | nil => rfl
  | cons s t ih => simp [decList, decodeSuggestion_suggestionToJ, ih]

theorem decodeStringItem_jstr (q : String) :
    decodeStringItem (.jstr q.data) = some q := rfl

theorem decList_questions (qs : List String) :
    decList decodeStringItem (qs.map (fun q => Jval.jstr q.data)) = some qs := by
  induction qs with
  | nil => rfl
  | cons q t ih => simp [decList, decodeStringItem_jstr, ih]

theorem decReviewFields_cons (R R' : AICodeReview) (kv : List Char × Jval)
    (t : List (List Char × Jval)) (h : applyReviewField R kv = some R') :
    decReviewFields R (kv :: t) = decReviewFields R' t := by
  simp [decReviewFields, h]

theorem jsonUnmarshalReview_marshal (r : AICodeReview) :
    jsonUnmarshalReview (marshalReview r) = some r := by
  unfold jsonUnmarshalReview
  rw [parseJsonTop_marshal]
  show decReviewFields zeroReview
    [(kOverallScore, .jnum r.overall_score),
     (kIssues, .jarr (r.issues.map issueToJ)),
     (kSuggestions, .jarr (r.suggestions.map suggestionToJ)),
     (kInterviewerFeedback, .jstr r.interviewer_feedback.data),
     (kFollowUpQuestions, .jarr (r.follow_up_questions.map (fun q => .jstr q.data))),
     (kComplexity, complexityToJ r.complexity),
     (kReadabilityScore, .jnum r.readability_score),
     (kTestCoverage, .jstr r.test_coverage.data)] = some r
  have ha1 : applyReviewField
      zeroReview
      (kOverallScore, Jval.jnum r.overall_score) =
      some ({ zeroReview with
      overall_score := r.overall_score }) := rfl
  have ha2 : applyReviewField
      { zeroReview with
      overall_score := r.overall_score }
      (kIssues, Jval.jarr (r.issues.map issueToJ)) =
      some ({ zeroReview with
      overall_score := r.overall_score
      issues := r.issues }) := by
    show (decList decodeIssue (r.issues.map issueToJ)).map
        (fun xs : List CodeIssue =>
          ({ zeroReview with
        overall_score := r.overall_score
        issues := xs } : AICodeReview)) =
      some ({ zeroReview with
        overall_score := r.overall_score
        issues := r.issues } : AICodeReview)
    rw [decList_issues]
    rfl
  have ha3 : applyReviewField
      { zeroReview with
      overall_score := r.overall_score
      issues := r.issues }
      (kSuggestions, Jval.jarr (r.suggestions.map suggestionToJ)) =
      some ({ zeroReview with
      overall_score := r.overall_score
      issues := r.issues
      suggestions := r.suggestions }) := by
    show (decList decodeSuggestion (r.suggestions.map suggestionToJ)).map
        (fun xs : List CodeSuggestion =>
          ({ zeroReview with
        overall_score := r.overall_score
        issues := r.issues
        suggestions := xs } : AICodeReview)) =
      some ({ zeroReview with
        overall_score := r.overall_score
        issues := r.issues
        suggestions := r.suggestions } : AICodeReview)
    rw [decList_suggestions]
    rfl
  have ha4 : applyReviewField
      { zeroReview with
      overall_score := r.overall_score
      issues := r.issues
      suggestions := r.suggestions }
      (kInterviewerFeedback, Jval.jstr r.interviewer_feedback.data) =
      some ({ zeroReview with
      overall_score := r.overall_score
      issues := r.issues
      suggestions := r.suggestions
      interviewer_feedback := r.interviewer_feedback }) := rfl
  have ha5 : applyReviewField
      { zeroReview with
      overall_score := r.overall_score
      issues := r.issues
      suggestions := r.suggestions
      interviewer_feedback := r.interviewer_feedback }
      (kFollowUpQuestions, Jval.jarr (r.follow_up_questions.map (fun q => Jval.jstr q.data))) =
      some ({ zeroReview with
      overall_score := r.overall_score
      issues := r.issues
      suggestions := r.suggestions
      interviewer_feedback := r.interviewer_feedback
      follow_up_questions := r.follow_up_questions }) := by
    show (decList decodeStringItem (r.follow_up_questions.map (fun q => Jval.jstr q.data))).map
        (fun xs : List String =>
          ({ zeroReview with
        overall_score := r.overall_score
        issues := r.issues
        suggestions := r.suggestions
        interviewer_feedback := r.interviewer_feedback
        follow_up_questions := xs } : AICodeReview)) =
      some ({ zeroReview with
        overall_score := r.overall_score
        issues := r.issues
        suggestions := r.suggestions
        interviewer_feedback := r.interviewer_feedback
        follow_up_questions := r.follow_up_questions } : AICodeReview)
    rw [decList_questions]
    rfl
  have ha6 : applyReviewField
      { zeroReview with
      overall_score := r.overall_score
      issues := r.issues
      suggestions := r.suggestions
      interviewer_feedback := r.interviewer_feedback
      follow_up_questions := r.follow_up_questions }
      (kComplexity, complexityToJ r.complexity) =
      some ({ zeroReview with
      overall_score := r.overall_score
      issues := r.issues
      suggestions := r.suggestions
      interviewer_feedback := r.interviewer_feedback
      follow_up_questions := r.follow_up_questions
      complexity := r.complexity }) := rfl
  have ha7 : applyReviewField
      { zeroReview with
      overall_score := r.overall_score
      issues := r.issues
      suggestions := r.suggestions
      interviewer_feedback := r.interviewer_feedback
      follow_up_questions := r.follow_up_questions
      complexity := r.complexity }
      (kReadabilityScore, Jval.jnum r.readability_score) =
      some ({ zeroReview with
      overall_score := r.overall_score
      issues := r.issues
      suggestions := r.suggestions
      interviewer_feedback := r.interviewer_feedback
      follow_up_questions := r.follow_up_questions
      complexity := r.complexity
      readability_score := r.readability_score }) := rfl
  have ha8 : applyReviewField
      { zeroReview with
      overall_score := r.overall_score
      issues := r.issues
      suggestions := r.suggestions
      interviewer_feedback := r.interviewer_feedback
      follow_up_questions := r.follow_up_questions
      complexity := r.complexity
      readability_score := r.readability_score }
      (kTestCoverage, Jval.jstr r.test_coverage.data) =
      some ({ zeroReview with
      overall_score := r.overall_score
      issues := r.issues
      suggestions := r.suggestions
      interviewer_feedback := r.interviewer_feedback
      follow_up_questions := r.follow_up_questions
      complexity := r.complexity
      readability_score := r.readability_score
      test_coverage := r.test_coverage }) := rfl
  rw [decReviewFields_cons _ _ _ _ ha1, decReviewFields_cons _ _ _ _ ha2,
    decReviewFields_cons _ _ _ _ ha3, decReviewFields_cons _ _ _ _ ha4,
    decReviewFields_cons _ _ _ _ ha5, decReviewFields_cons _ _ _ _ ha6,
    decReviewFields_cons _ _ _ _ ha7, decReviewFields_cons _ _ _ _ ha8]
  rfl

theorem lastIdx_concat (l : List Char) (c : Char) : lastIdx (l ++ [c]) c = some l.length := by
  unfold lastIdx
  rw [List.reverse_append]
  simp [idxOf]

set_option maxRecDepth 12000 in
/-- C10 counterexample: `parseAIResponse` succeeds via the full-parse path
on a reply whose `interviewer_feedback` is the single character `}`
(written `\u007d` in the reply, so the candidate's braces are balanced),
but `json.Marshal` writes that character back literally, so the
re-serialized text has unbalanced braces and re-extraction returns the
"Incomplete JSON response" fallback instead of the same review: the
serialize-extract round trip of a successful output is not the identity. -/
theorem c10_counterexample :
    parseAIResponse "\x7b\"overall_score\":5,\"interviewer_feedback\":\"\\u007d\"\x7d" =
      some { zeroReview with overall_score := 5, interviewer_feedback := "\x7d" } ∧
    parseAIResponse (marshalReviewStr
        { zeroReview with overall_score := 5, interviewer_feedback := "\x7d" }) ≠
      some { zeroReview with overall_score := 5, interviewer_feedback := "\x7d" } := by
  decide

/-- C10 (amended): the serialize-extract round trip is the identity for
every review that passes the all-zero-signal gate (as every full-parse-path
output does, by `parseAIResponse_signals`) and whose serialization has
balanced `{`/`}` counts - the balance assumption is necessary, as
`c10_counterexample` shows. -/
theorem c10_amended (r : AICodeReview)
    (hsig : ¬(r.overall_score = 0 ∧ r.readability_score = 0 ∧ r.interviewer_feedback = ""))
    (hbal : (marshalReview r).count '\x7b' = (marshalReview r).count '\x7d') :
    parseAIResponse (marshalReviewStr r) = some r := by
  obtain ⟨t, hhead⟩ := marshalReview_head r
  obtain ⟨p, hends⟩ := marshalReview_ends r
  have hmem1 : '\x7b' ∈ marshalReview r := by
    rw [hhead]; exact List.mem_cons_self _ _
  have hmem2 : '\x7d' ∈ marshalReview r := by
    rw [hends]; simp
  show parseCore (goCleanResponse (marshalReviewStr r).data) = some r
  have hdata : (marshalReviewStr r).data = marshalReview r := rfl
  rw [hdata, parseCore_goClean hmem1 hmem2]
  have htrim : goTrimSpace (marshalReview r) = marshalReview r := by
    apply goTrimSpace_eq_self
    · exact ⟨'\x7b', t, hhead, by decide⟩
    · refine ⟨'\x7d', p.reverse, ?_, by decide⟩
      rw [hends, List.reverse_append]
      rfl
  rw [htrim]
  have hidx : idxOf (marshalReview r) '\x7b' = some 0 := by
    rw [hhead]; simp [idxOf]
  have hlast : lastIdx (marshalReview r) '\x7d' = some p.length := by
    rw [hends]; exact lastIdx_concat p _
  have hlen : (marshalReview r).length = p.length + 1 := by
    rw [hends]; simp
  have hjson : ((marshalReview r).drop 0).take (p.length + 1 - 0) = marshalReview r := by
    rw [List.drop_zero, show p.length + 1 - 0 = (marshalReview r).length from by omega,
      List.take_length]
  exact parseCore_success hidx hlast (by omega)
    (by rw [hjson]; exact hbal)
    (by rw [hjson]; exact jsonUnmarshalReview_marshal r)
    hsig

set_option maxRecDepth 12000 in
/-- Witness for the amended C10 theorem: a concrete fully-populated review
satisfies both hypotheses, and the theorem applied to it gives the exact
round trip. -/
theorem c10_amended_witness :
    ¬(sampleReview.overall_score = 0 ∧ sampleReview.readability_score = 0 ∧
        sampleReview.interviewer_feedback = "") ∧
      (marshalReview sampleReview).count '\x7b' =
        (marshalReview sampleReview).count '\x7d' ∧
      parseAIResponse (marshalReviewStr sampleReview) = some sampleReview :=
  ⟨by decide, by decide, c10_amended sampleReview (by decide) (by decide)⟩
